import Mathlib

/-!
Verification development for the VolcAIGCToolBoard gateway.

The Python source is shallowly embedded: raw bytes are `List Nat`
(one entry per byte), Python dicts are insertion-ordered association
lists, and the external world (subprocess results, HTTP responses,
clock) is passed in explicitly as oracle/environment values.  All
definitions are executable and mirror the control flow of the source
files under `src/` line by line.
-/

namespace VolcBoard

/-! ## Generic sequence primitives (Python `bytes` / `str` operations) -/

/-- First index at which `sep` occurs as a contiguous subsequence of `xs`
(Python `bytes.find`). -/
def firstOcc [DecidableEq α] (sep : List α) : List α → Option Nat
  | [] => if sep.isPrefixOf [] then some 0 else none
  | x :: t =>
    if sep.isPrefixOf (x :: t) then some 0
    else (firstOcc sep t).map (· + 1)

/-- Whether `sep` occurs as a contiguous subsequence of `xs`
(Python `sep in xs`). -/
def containsSeq [DecidableEq α] (sep xs : List α) : Bool :=
  (firstOcc sep xs).isSome

theorem isPrefixOf_length_le [DecidableEq α] {p xs : List α}
    (h : p.isPrefixOf xs = true) : p.length ≤ xs.length := by
  induction p generalizing xs with
  | nil => simp
  | cons a t ih =>
    cases xs with
    | nil => simp [List.isPrefixOf] at h
    | cons b u =>
      simp only [List.isPrefixOf, Bool.and_eq_true, beq_iff_eq] at h
      simpa using Nat.succ_le_succ (ih h.2)

theorem firstOcc_le [DecidableEq α] {sep xs : List α} {i : Nat}
    (h : firstOcc sep xs = some i) : i + sep.length ≤ xs.length := by
  induction xs generalizing i with
  | nil =>
    by_cases hp : sep.isPrefixOf ([] : List α) = true
    · simp only [firstOcc, hp, if_true, Option.some.injEq] at h
      subst h
      simpa using isPrefixOf_length_le hp
    · simp [firstOcc, hp] at h
  | cons x t ih =>
    by_cases hp : sep.isPrefixOf (x :: t) = true
    · simp only [firstOcc, hp, if_true, Option.some.injEq] at h
      subst h
      simpa using isPrefixOf_length_le hp
    · rw [firstOcc, if_neg (by simp [hp])] at h
      cases hfo : firstOcc sep t with
      | none => rw [hfo] at h; simp at h
      | some j =>
        rw [hfo] at h
        simp only [Option.map_some', Option.some.injEq] at h
        have := ih hfo
        simp only [List.length_cons]
        omega

/-- Fuel-driven worker for `splitOnSeq` (structural recursion keeps
the function kernel-reducible; `xs.length` fuel always suffices for a
non-empty separator). -/
def splitOnSeqF [DecidableEq α] (sep : List α) : Nat → List α → List (List α)
  | 0, xs => [xs]
  | fuel + 1, xs =>
    match firstOcc sep xs with
    | none => [xs]
    | some i => xs.take i :: splitOnSeqF sep fuel (xs.drop (i + sep.length))

/-- Python `xs.split(sep)` for a non-empty separator (the degenerate
empty separator, which Python rejects, returns the whole input). -/
def splitOnSeq [DecidableEq α] (sep xs : List α) : List (List α) :=
  if sep = [] then [xs] else splitOnSeqF sep xs.length xs

theorem firstOcc_nil_of_ne [DecidableEq α] {sep : List α} (h : sep ≠ []) :
    firstOcc sep ([] : List α) = none := by
  cases sep with
  | nil => exact absurd rfl h
  | cons a t => simp [firstOcc, List.isPrefixOf]

theorem splitOnSeqF_of_none [DecidableEq α] {sep xs : List α}
    (h : firstOcc sep xs = none) (fuel : Nat) :
    splitOnSeqF sep fuel xs = [xs] := by
  cases fuel with
  | zero => rfl
  | succ n => rw [splitOnSeqF, h]

theorem splitOnSeqF_of_some [DecidableEq α] {sep xs : List α} {i : Nat}
    (h : firstOcc sep xs = some i) (fuel : Nat) :
    splitOnSeqF sep (fuel + 1) xs =
      xs.take i :: splitOnSeqF sep fuel (xs.drop (i + sep.length)) := by
  rw [splitOnSeqF, h]

theorem splitOnSeqF_fuel_irrel [DecidableEq α] {sep : List α} (hsep : sep ≠ []) :
    ∀ fuel1 fuel2 xs, xs.length ≤ fuel1 → xs.length ≤ fuel2 →
    splitOnSeqF sep fuel1 xs = splitOnSeqF sep fuel2 xs := by
  intro fuel1
  induction fuel1 with
  | zero =>
    intro fuel2 xs h1 _
    have hxs : xs = [] := by
      cases xs with
      | nil => rfl
      | cons a t => simp at h1
    subst hxs
    rw [splitOnSeqF_of_none (firstOcc_nil_of_ne hsep) fuel2]
    rfl
  | succ n ih =>
    intro fuel2 xs h1 h2
    cases hocc : firstOcc sep xs with
    | none => rw [splitOnSeqF_of_none hocc, splitOnSeqF_of_none hocc]
    | some i =>
      have hle := firstOcc_le hocc
      have hpos : 0 < sep.length := by
        cases sep with
        | nil => exact absurd rfl hsep
        | cons a t => simp
      cases fuel2 with
      | zero =>
        exfalso
        have : xs.length = 0 := Nat.le_zero.mp h2
        have hxs : xs = [] := List.length_eq_zero.mp this
        subst hxs
        rw [firstOcc_nil_of_ne hsep] at hocc
        exact absurd hocc (by simp)
      | succ m =>
        have hlen : (xs.drop (i + sep.length)).length ≤ n ∧
            (xs.drop (i + sep.length)).length ≤ m := by
          rw [List.length_drop]
          omega
        rw [splitOnSeqF_of_some hocc n, splitOnSeqF_of_some hocc m,
          ih m (xs.drop (i + sep.length)) hlen.1 hlen.2]

/-- Python `xs.split(sep, 1)` when `sep` occurs in `xs`. -/
def splitOnceSeq [DecidableEq α] (sep xs : List α) : Option (List α × List α) :=
  (firstOcc sep xs).map (fun i => (xs.take i, xs.drop (i + sep.length)))

theorem isPrefixOf_iff_eq_take [DecidableEq α] {p xs : List α} :
    p.isPrefixOf xs = true ↔ p = xs.take p.length := by
  induction p generalizing xs with
  | nil => simp
  | cons a t ih =>
    cases xs with
    | nil => simp [List.isPrefixOf]
    | cons b u =>
      simp only [List.isPrefixOf, Bool.and_eq_true, beq_iff_eq, List.length_cons,
        List.take_succ_cons, List.cons.injEq]
      exact and_congr Iff.rfl ih

theorem isPrefixOf_append_self [DecidableEq α] (p r : List α) :
    p.isPrefixOf (p ++ r) = true := by
  rw [isPrefixOf_iff_eq_take]
  rw [List.take_append_eq_append_take, Nat.sub_self, List.take_zero,
    List.append_nil, List.take_length]

theorem firstOcc_of_isPrefixOf [DecidableEq α] {sep xs : List α}
    (h : sep.isPrefixOf xs = true) : firstOcc sep xs = some 0 := by
  cases xs with
  | nil => simp [firstOcc, h]
  | cons x t => simp [firstOcc, h]

theorem containsSeq_of_isPrefixOf [DecidableEq α] {sep xs : List α}
    (h : sep.isPrefixOf xs = true) : containsSeq sep xs = true := by
  simp [containsSeq, firstOcc_of_isPrefixOf h]

theorem containsSeq_cons [DecidableEq α] (sep : List α) (x : α) (t : List α) :
    containsSeq sep (x :: t) = (sep.isPrefixOf (x :: t) || containsSeq sep t) := by
  by_cases hp : sep.isPrefixOf (x :: t) = true
  · simp [containsSeq, firstOcc, hp]
  · simp only [containsSeq, firstOcc, hp, if_false, Bool.false_or]
    cases firstOcc sep t <;> simp [hp]

theorem containsSeq_of_short [DecidableEq α] {sep xs : List α}
    (h : xs.length < sep.length) : containsSeq sep xs = false := by
  rw [containsSeq]
  cases hf : firstOcc sep xs with
  | none => rfl
  | some i => exact absurd (firstOcc_le hf) (by omega)

/-- If two sequences agree on their first `n` elements, prefixes of
length at most `n` transfer between them. -/
theorem isPrefixOf_congr_take [DecidableEq α] {p x y : List α} {n : Nat}
    (hxy : x.take n = y.take n) (hn : p.length ≤ n) :
    p.isPrefixOf x = p.isPrefixOf y := by
  have hx : x.take p.length = y.take p.length := by
    have := congrArg (List.take p.length) hxy
    simpa [List.take_take, Nat.min_eq_left hn] using this
  have hiff : p.isPrefixOf x = true ↔ p.isPrefixOf y = true := by
    rw [isPrefixOf_iff_eq_take, isPrefixOf_iff_eq_take, hx]
  cases hxp : p.isPrefixOf x with
  | true => exact (hiff.mp hxp).symm
  | false =>
    cases hyp : p.isPrefixOf y with
    | true => exact absurd (hiff.mpr hyp) (by rw [hxp]; simp)
    | false => rfl

/-- A prefix occurrence that begins inside a non-empty block `u`
survives truncating the continuation `v` to `sep.length - 1` elements. -/
theorem isPrefixOf_append_take [DecidableEq α] {sep u v : List α}
    (hu : u ≠ []) (h : sep.isPrefixOf (u ++ v) = true) :
    sep.isPrefixOf (u ++ v.take (sep.length - 1)) = true := by
  rcases Nat.eq_zero_or_pos sep.length with hz | hpos
  · rw [List.length_eq_zero] at hz
    subst hz
    simp [List.isPrefixOf]
  · have hul : 1 ≤ u.length := by
      cases u with
      | nil => exact absurd rfl hu
      | cons a b => simp
    rw [← h]
    apply isPrefixOf_congr_take (n := sep.length) _ (Nat.le_refl _)
    rw [List.take_append_eq_append_take, List.take_append_eq_append_take,
      List.take_take]
    have : min (sep.length - u.length) (sep.length - 1) = sep.length - u.length := by
      omega
    rw [this]

/-- Scanning skip lemma for `firstOcc`: if `sep` has no occurrence
starting inside `u` (including occurrences spilling into the first
`sep.length - 1` elements of `v`), the first occurrence in `u ++ v` is
the first occurrence in `v`, shifted. -/
theorem firstOcc_append [DecidableEq α] {sep u v : List α}
    (h : containsSeq sep (u ++ v.take (sep.length - 1)) = false) :
    firstOcc sep (u ++ v) = (firstOcc sep v).map (· + u.length) := by
  induction u with
  | nil =>
    simp only [List.nil_append, List.length_nil]
    cases firstOcc sep v <;> simp
  | cons x t ih =>
    have hnp : sep.isPrefixOf ((x :: t) ++ v) = false := by
      by_contra hc
      simp only [Bool.not_eq_false] at hc
      have h1 := isPrefixOf_append_take (by simp) hc
      have h2 := containsSeq_of_isPrefixOf h1
      rw [List.cons_append] at h2
      simp [h2] at h
    have ht : containsSeq sep (t ++ v.take (sep.length - 1)) = false := by
      rw [List.cons_append, containsSeq_cons] at h
      rcases Bool.or_eq_false_iff.mp h with ⟨_, h2⟩
      exact h2
    rw [List.cons_append, firstOcc,
      if_neg (by rw [← List.cons_append, hnp]; simp), ih ht]
    cases firstOcc sep v <;> simp [Nat.add_comm, Nat.add_assoc, Nat.add_left_comm]

theorem firstOcc_append_sep [DecidableEq α] {sep u : List α} (r : List α)
    (h : containsSeq sep (u ++ sep.take (sep.length - 1)) = false) :
    firstOcc sep (u ++ (sep ++ r)) = some u.length := by
  have htake : (sep ++ r).take (sep.length - 1) = sep.take (sep.length - 1) := by
    rw [List.take_append_eq_append_take]
    have : sep.length - 1 - sep.length = 0 := by omega
    rw [this, List.take_zero, List.append_nil]
  rw [firstOcc_append (by rw [htake]; exact h),
    firstOcc_of_isPrefixOf (isPrefixOf_append_self sep r)]
  simp

theorem containsSeq_eq_false_iff_firstOcc [DecidableEq α] {sep xs : List α} :
    containsSeq sep xs = false ↔ firstOcc sep xs = none := by
  rw [containsSeq]
  cases firstOcc sep xs <;> simp

theorem splitOnSeq_of_not_contains [DecidableEq α] {sep xs : List α}
    (h : containsSeq sep xs = false) : splitOnSeq sep xs = [xs] := by
  rw [splitOnSeq]
  by_cases hs : sep = []
  · rw [if_pos hs]
  · rw [if_neg hs,
      splitOnSeqF_of_none (containsSeq_eq_false_iff_firstOcc.mp h)]

/-- Main splitting lemma: one well-separated block peels off. -/
theorem splitOnSeq_append [DecidableEq α] {sep u : List α} (r : List α)
    (hsep : sep ≠ [])
    (h : containsSeq sep (u ++ sep.take (sep.length - 1)) = false) :
    splitOnSeq sep (u ++ (sep ++ r)) = u :: splitOnSeq sep r := by
  have hpos : 0 < sep.length := by
    cases sep with
    | nil => exact absurd rfl hsep
    | cons a t => simp
  have hocc := firstOcc_append_sep r h
  have hlen : (u ++ (sep ++ r)).length = u.length + sep.length + r.length := by
    simp [Nat.add_assoc]
  have htake : (u ++ (sep ++ r)).take u.length = u := by
    rw [List.take_append_eq_append_take, Nat.sub_self, List.take_zero,
      List.append_nil, List.take_length]
  have hdrop : (u ++ (sep ++ r)).drop (u.length + sep.length) = r := by
    rw [← List.append_assoc, show u.length + sep.length = (u ++ sep).length by
      simp, List.drop_left]
  have hL : (u ++ (sep ++ r)).length =
      (u.length + sep.length + r.length - 1) + 1 := by
    rw [hlen]
    omega
  rw [splitOnSeq, if_neg hsep, hL, splitOnSeqF_of_some hocc, htake, hdrop,
    splitOnSeq, if_neg hsep,
    splitOnSeqF_fuel_irrel hsep (u.length + sep.length + r.length - 1)
      r.length r (by omega) (Nat.le_refl _)]

theorem splitOnceSeq_append [DecidableEq α] {sep u : List α} (r : List α)
    (h : containsSeq sep (u ++ sep.take (sep.length - 1)) = false) :
    splitOnceSeq sep (u ++ (sep ++ r)) = some (u, r) := by
  rw [splitOnceSeq, firstOcc_append_sep r h, Option.map_some']
  congr 1
  rw [List.take_append_eq_append_take, Nat.sub_self, List.take_zero,
    List.append_nil, List.take_length]
  rw [← List.append_assoc, show u.length + sep.length = (u ++ sep).length by
    simp, List.drop_left]

/-! ## A scanning model of the `re.search` patterns used by the parsers

All the regular expressions in the source have the shape
`pat` followed by a (possibly empty) capture of non-stop characters,
optionally requiring a closing stop character (`name="([^"]+)"`,
`filename="([^"]*)"`, `boundary=([^;\s]+)`).  `scanPat` mirrors the
leftmost-match semantics of `re.search` for exactly these patterns. -/
def scanPat [DecidableEq α] (pat : List α) (stop : α → Bool)
    (needClose allowEmpty : Bool) : List α → Option (List α)
  | [] => none
  | x :: t =>
    if pat.isPrefixOf (x :: t) then
      let rest := (x :: t).drop pat.length
      let cap := rest.takeWhile (fun b => !stop b)
      if (allowEmpty || !cap.isEmpty) && (!needClose || decide (cap.length < rest.length)) then
        some cap
      else scanPat pat stop needClose allowEmpty t
    else scanPat pat stop needClose allowEmpty t

/-- Skip lemma for `scanPat`, mirroring `firstOcc_append`. -/
theorem scanPat_append [DecidableEq α] {pat u v : List α}
    {stop : α → Bool} {nc ae : Bool}
    (h : containsSeq pat (u ++ v.take (pat.length - 1)) = false) :
    scanPat pat stop nc ae (u ++ v) = scanPat pat stop nc ae v := by
  induction u with
  | nil => simp
  | cons x t ih =>
    have hnp : pat.isPrefixOf ((x :: t) ++ v) = false := by
      by_contra hc
      simp only [Bool.not_eq_false] at hc
      have h1 := isPrefixOf_append_take (by simp) hc
      have h2 := containsSeq_of_isPrefixOf h1
      rw [List.cons_append] at h2
      simp [h2] at h
    have ht : containsSeq pat (t ++ v.take (pat.length - 1)) = false := by
      rw [List.cons_append, containsSeq_cons] at h
      rcases Bool.or_eq_false_iff.mp h with ⟨_, h2⟩
      exact h2
    rw [List.cons_append, scanPat,
      if_neg (by rw [← List.cons_append, hnp]; simp)]
    exact ih ht

theorem scanPat_of_not_contains [DecidableEq α] {pat xs : List α}
    {stop : α → Bool} {nc ae : Bool}
    (h : containsSeq pat xs = false) : scanPat pat stop nc ae xs = none := by
  induction xs with
  | nil => rfl
  | cons x t ih =>
    rw [containsSeq_cons, Bool.or_eq_false_iff] at h
    rw [scanPat, if_neg (by rw [h.1]; simp)]
    exact ih h.2

theorem takeWhile_append_of_all [DecidableEq α] {p : α → Bool} {c : List α}
    (hc : ∀ b ∈ c, p b = true) {q : α} (hq : p q = false) (z : List α) :
    (c ++ q :: z).takeWhile p = c := by
  induction c with
  | nil => simp [List.takeWhile_cons, hq]
  | cons a t ih =>
    have ha : p a = true := hc a (by simp)
    rw [List.cons_append, List.takeWhile_cons, ha]
    simp only [if_true]
    rw [ih (fun b hb => hc b (by simp [hb]))]

/-- Successful closed capture: the text is the pattern, then a capture
free of stop characters, then a stop character. -/
theorem scanPat_capture_closed [DecidableEq α] {pat cap : List α}
    {stop : α → Bool} {ae : Bool} {q : α} (z : List α)
    (hpat : pat ≠ [])
    (hcap : ∀ b ∈ cap, stop b = false)
    (hq : stop q = true)
    (hne : ae = true ∨ cap ≠ []) :
    scanPat pat stop true ae (pat ++ (cap ++ q :: z)) = some cap := by
  cases pat with
  | nil => exact absurd rfl hpat
  | cons p ps =>
    rw [List.cons_append, scanPat]
    have hpre : (p :: ps).isPrefixOf ((p :: ps) ++ (cap ++ q :: z)) = true :=
      isPrefixOf_append_self _ _
    rw [List.cons_append] at hpre
    rw [if_pos hpre]
    have hdrop : (p :: (ps ++ (cap ++ q :: z))).drop (p :: ps).length
        = cap ++ q :: z := by
      rw [← List.cons_append, show (p :: ps).length = ((p :: ps) : List α).length from rfl,
        List.drop_left]
    have htw : (cap ++ q :: z).takeWhile (fun b => !stop b) = cap :=
      takeWhile_append_of_all (fun b hb => by simp [hcap b hb]) (by simp [hq]) z
    have hlen : cap.length < (cap ++ q :: z).length := by
      simp only [List.length_append, List.length_cons]
      omega
    rcases hne with hae | hcne
    · simp [hdrop, htw, hlen, hae]
    · have hemp : cap.isEmpty = false := by
        cases cap with
        | nil => exact absurd rfl hcne
        | cons a b => rfl
      simp [hdrop, htw, hlen, hemp]

/-- Successful open capture (no closing requirement), used for the
boundary pattern: everything up to the first stop character is captured. -/
theorem scanPat_capture_open [DecidableEq α] {pat rest : List α}
    {stop : α → Bool} {ae : Bool}
    (hpat : pat ≠ [])
    (hne : ae = true ∨ rest.takeWhile (fun b => !stop b) ≠ []) :
    scanPat pat stop false ae (pat ++ rest) = some (rest.takeWhile (fun b => !stop b)) := by
  cases pat with
  | nil => exact absurd rfl hpat
  | cons p ps =>
    rw [List.cons_append, scanPat]
    have hpre : (p :: ps).isPrefixOf ((p :: ps) ++ rest) = true :=
      isPrefixOf_append_self _ _
    rw [List.cons_append] at hpre
    rw [if_pos hpre]
    have hdrop : (p :: (ps ++ rest)).drop (p :: ps).length = rest := by
      rw [← List.cons_append, show (p :: ps).length = ((p :: ps) : List α).length from rfl,
        List.drop_left]
    rcases hne with hae | hcne
    · simp [hdrop, hae]
    · have hemp : (rest.takeWhile (fun b => !stop b)).isEmpty = false := by
        cases hc : rest.takeWhile (fun b => !stop b) with
        | nil => exact absurd hc hcne
        | cons a b => rfl
      simp [hdrop, hemp]

/-! ## Trailing/leading strip helpers (Python `rstrip` / `strip`) -/

/-- Python `bs.rstrip(b"\r\n")`: remove every trailing CR or LF byte. -/
def rstripCRLF (xs : List Nat) : List Nat :=
  (xs.reverse.dropWhile (fun b => b == 13 || b == 10)).reverse

/-- Python `s.strip(c)` for a single strip character. -/
def stripChar [DecidableEq α] (c : α) (xs : List α) : List α :=
  ((xs.dropWhile (· == c)).reverse.dropWhile (· == c)).reverse

theorem dropWhile_eq_self_of_head [DecidableEq α] {p : α → Bool} {xs : List α}
    (h : ∀ a ∈ xs.take 1, p a = false) : xs.dropWhile p = xs := by
  cases xs with
  | nil => rfl
  | cons x t =>
    rw [List.dropWhile_cons, h x (by simp)]
    simp

theorem rstripCRLF_append (c : List Nat)
    (hc : ∀ a ∈ c.reverse.take 1, (a == 13 || a == 10) = false) :
    rstripCRLF (c ++ [13, 10]) = c := by
  rw [rstripCRLF, List.reverse_append]
  show ((10 :: 13 :: c.reverse).dropWhile (fun b => b == 13 || b == 10)).reverse = c
  rw [List.dropWhile_cons, List.dropWhile_cons]
  simp only [show ((13 : Nat) == 13 || (13 : Nat) == 10) = true from rfl,
    show ((10 : Nat) == 13 || (10 : Nat) == 10) = true from rfl, if_true]
  rw [dropWhile_eq_self_of_head hc, List.reverse_reverse]

theorem stripChar_eq_self [DecidableEq α] {c : α} {xs : List α}
    (h : ∀ a ∈ xs, a ≠ c) : stripChar c xs = xs := by
  have h1 : xs.dropWhile (· == c) = xs := by
    apply dropWhile_eq_self_of_head
    intro a ha
    exact beq_eq_false_iff_ne.mpr (h a (List.mem_of_mem_take ha))
  rw [stripChar, h1]
  have h2 : xs.reverse.dropWhile (· == c) = xs.reverse := by
    apply dropWhile_eq_self_of_head
    intro a ha
    exact beq_eq_false_iff_ne.mpr
      (h a (List.mem_reverse.mp (List.mem_of_mem_take ha)))
  rw [h2, List.reverse_reverse]

/-! ## Insertion-ordered dictionaries (Python `dict`)

A Python `dict` preserves insertion order; updating an existing key
keeps its position.  We model it as an association list with those
exact semantics. -/

def dictLookup [DecidableEq κ] (fd : List (κ × β)) (k : κ) : Option β :=
  match fd with
  | [] => none
  | p :: t => if p.1 = k then some p.2 else dictLookup t k

/-- `d[k] = v` (replace in place, or append at the end). -/
def dictSet [DecidableEq κ] (fd : List (κ × β)) (k : κ) (v : β) : List (κ × β) :=
  match fd with
  | [] => [(k, v)]
  | p :: t => if p.1 = k then (p.1, v) :: t else p :: dictSet t k v

/-- `d.setdefault(k, []).append(v)`: append `v` to the list stored at
`k`, creating a one-element list if `k` is absent. -/
def dictAppend [DecidableEq κ] (fd : List (κ × List β)) (k : κ) (v : β) :
    List (κ × List β) :=
  match fd with
  | [] => [(k, [v])]
  | p :: t => if p.1 = k then (p.1, p.2 ++ [v]) :: t else p :: dictAppend t k v

theorem dictLookup_dictSet_self [DecidableEq κ] (fd : List (κ × β)) (k : κ) (v : β) :
    dictLookup (dictSet fd k v) k = some v := by
  induction fd with
  | nil => simp [dictSet, dictLookup]
  | cons p t ih =>
    by_cases h : p.1 = k
    · simp [dictSet, dictLookup, h]
    · simp [dictSet, dictLookup, h, ih]

theorem dictLookup_dictSet_other [DecidableEq κ] (fd : List (κ × β)) {k k' : κ}
    (v : β) (h : k ≠ k') :
    dictLookup (dictSet fd k v) k' = dictLookup fd k' := by
  induction fd with
  | nil => simp [dictSet, dictLookup, h]
  | cons p t ih =>
    by_cases hp : p.1 = k
    · simp [dictSet, dictLookup, hp, h, hp.symm ▸ h]
    · simp only [dictSet, hp, if_false, dictLookup]
      by_cases hp' : p.1 = k' <;> simp [hp', ih]

theorem dictLookup_dictAppend_self [DecidableEq κ] (fd : List (κ × List β))
    (k : κ) (v : β) :
    dictLookup (dictAppend fd k v) k
      = some ((dictLookup fd k).getD [] ++ [v]) := by
  induction fd with
  | nil => simp [dictAppend, dictLookup]
  | cons p t ih =>
    by_cases h : p.1 = k
    · simp [dictAppend, dictLookup, h]
    · simp [dictAppend, dictLookup, h, ih]

theorem dictLookup_dictAppend_other [DecidableEq κ] (fd : List (κ × List β))
    {k k' : κ} (v : β) (h : k ≠ k') :
    dictLookup (dictAppend fd k v) k' = dictLookup fd k' := by
  induction fd with
  | nil => simp [dictAppend, dictLookup, h]
  | cons p t ih =>
    by_cases hp : p.1 = k
    · simp [dictAppend, dictLookup, hp, h, hp.symm ▸ h]
    · simp only [dictAppend, hp, if_false, dictLookup]
      by_cases hp' : p.1 = k' <;> simp [hp', ih]

/-! ## TOS uploader (`src/modules/tos_utils.py`, `TOSUploader`)

`upload_file` shells out to the `tosutil` binary twice (a `cp` write
and an optional `set-acl`); both external calls are modelled by an
environment carrying either the process result `(returncode, stderr)`
or the message of a raised exception (e.g. `TimeoutExpired`).  The
MD5 hex digest is an opaque deterministic function of the raw bytes,
passed as a parameter.  The timestamp produced by `datetime.now()` is
likewise part of the per-call environment. -/

/-- Mirrors the constructor state of `TOSUploader`. -/
structure TOSUploader where
  bucket : String
  region : String
  enable_cache : Bool
deriving DecidableEq, Repr

def TOSUploader.base_url (up : TOSUploader) : String :=
  "https://" ++ up.bucket ++ ".tos-" ++ up.region ++ ".volces.com"

/-- External world of one `upload_file` call: the wall-clock timestamp
string and the two subprocess outcomes (`Except` error = the message of
a raised exception). -/
structure UploadEnv where
  timestamp : String
  cpResult : Except String (Int × String)
  aclResult : Except String (Int × String)
deriving Repr

/-- The result dict of `upload_file` (absent keys are `none`). -/
structure UploadResult where
  success : Bool
  url : Option String := none
  error : Option String := none
  cached : Option Bool := none
deriving DecidableEq, Repr

/-- The upload cache (`self.upload_cache`): `none` when caching is
disabled, otherwise an MD5-hex-keyed dict of URLs. -/
abbrev UploadCache := Option (List (String × String))

/-- Result of one `upload_file` call: the returned dict, the cache
afterwards, and how many times the storage write (`tosutil cp`) was
invoked. -/
structure UploadStep where
  result : UploadResult
  cache : UploadCache
  storageWrites : Nat
deriving DecidableEq, Repr

/-- The cache-probe performed at the top of `upload_file`. -/
def cacheProbe (md5hex : List Nat → String) (up : TOSUploader)
    (cache : UploadCache) (file_content : List Nat) : Option String :=
  if up.enable_cache then dictLookup (cache.getD []) (md5hex file_content)
  else none

/-- `TOSUploader.upload_file` (tos_utils.py lines 32-122). -/
def upload_file (md5hex : List Nat → String) (up : TOSUploader)
    (env : UploadEnv) (cache : UploadCache) (file_content : List Nat)
    (filename : String) (set_public_read : Bool) : UploadStep :=
  let file_hash := (md5hex file_content).take 8
  let unique_filename := env.timestamp ++ "_" ++ file_hash ++ "_" ++ filename
  match cacheProbe md5hex up cache file_content with
  | some u => ⟨⟨true, some u, none, some true⟩, cache, 0⟩
  | none =>
    match env.cpResult with
    | Except.error e =>
      ⟨⟨false, none, some ("上传过程中发生错误: " ++ e), none⟩, cache, 1⟩
    | Except.ok (rc, stderr) =>
      if rc = 0 then
        let aclStep : Except String Unit :=
          if set_public_read then
            match env.aclResult with
            | Except.error e => Except.error e
            | Except.ok _ => Except.ok ()   -- nonzero exit only logs a warning
          else Except.ok ()
        match aclStep with
        | Except.error e =>
          ⟨⟨false, none, some ("上传过程中发生错误: " ++ e), none⟩, cache, 1⟩
        | Except.ok _ =>
          let file_url := up.base_url ++ "/" ++ unique_filename
          let cache' : UploadCache :=
            if up.enable_cache then
              some (dictSet (cache.getD []) (md5hex file_content) file_url)
            else cache
          ⟨⟨true, some file_url, none, some false⟩, cache', 1⟩
      else
        ⟨⟨false, none, some ("上传失败: " ++ stderr), none⟩, cache, 1⟩

/-! ## Response envelopes (`src/modules/base_module.py`, `src/main_server.py`)

The JSON payloads built by `send_json_response` / `send_error_response`
and by the dispatcher's 404 branch are modelled as a record of optional
JSON keys (a key absent from the Python dict is `none`). -/

structure Envelope where
  success : Option Bool := none
  error : Option String := none
  module : Option String := none
  path : Option String := none
  message : Option String := none
deriving DecidableEq, Repr

structure HttpResponse where
  status_code : Nat
  body : Envelope
deriving DecidableEq, Repr

/-- `BaseModule.send_error_response` (base_module.py lines 164-179):
wraps `success=False`, the message, and the owning module's name. -/
def send_error_response (moduleName : String) (status_code : Nat)
    (error_message : String) : HttpResponse :=
  { status_code := status_code,
    body := { success := some false, error := some error_message,
              module := some moduleName } }

/-- The 404 JSON payload of `MainRequestHandler.do_GET`/`do_POST`
(main_server.py lines 152-156 and 186-190): note it carries `path`
but no `module` key. -/
def routeNotFoundResponse (path : String) : HttpResponse :=
  { status_code := 404,
    body := { success := some false, error := some "路径未找到",
              path := some path } }

/-- Names under which modules register themselves in `run_server`
(each module's `super().__init__(name, config)` call). -/
def registeredModuleNames : List String :=
  ["image_to_video", "text_to_video", "video_comprehension"]

/-! ## Route dispatch (`src/main_server.py`, `ModuleManager`) -/

/-- Python `s.startswith(p)` over the character sequence. -/
def strStartsWith (s p : String) : Bool := p.toList.isPrefixOf s.toList

/-- Python `s.endswith(p)` over the character sequence. -/
def strEndsWith (s p : String) : Bool := p.toList.reverse.isPrefixOf s.toList.reverse

/-- `route.endswith('/') and path.startswith(route)` (line 62). -/
def isPrefixRouteMatch (path : String) (r : String × String) : Bool :=
  strEndsWith r.1 "/" && strStartsWith path r.1

/-- The prefix-scan of `find_module_for_path` (lines 61-63): first
registered route, in insertion order, that prefix-matches. -/
def prefixScan (rm : List (String × String)) (path : String) : Option String :=
  match rm with
  | [] => none
  | r :: rest =>
    if isPrefixRouteMatch path r then some r.2 else prefixScan rest path

/-- `ModuleManager.find_module_for_path` (main_server.py lines 54-65).
The route map is the insertion-ordered dict `self.route_map`, with
modules identified by name. -/
def find_module_for_path (rm : List (String × String)) (path : String) :
    Option String :=
  match dictLookup rm path with
  | some m => some m
  | none => prefixScan rm path

/-- The module-dispatch portion of `MainRequestHandler.do_POST`
(main_server.py lines 180-190): route to the owning module's handler,
or answer the dispatcher-level 404. -/
def dispatchRequest (rm : List (String × String))
    (handlers : String → String → HttpResponse) (path : String) : HttpResponse :=
  match find_module_for_path rm path with
  | some m => handlers m path
  | none => routeNotFoundResponse path

/-! ## Poll loop (`src/tests/ref_gen_video/test_ref_gen_video.py`,
`RefGenVideoTestCase.query_task_status`, lines 135-251)

The upstream is an oracle from the attempt index to the observed
response; `interval` only feeds `time.sleep`, which we account for in
a slept-seconds total. -/

inductive PollResp where
  | ok (status : String)               -- HTTP 200, JSON `status` field
  | httpErr (code : Nat) (text : String)  -- non-200 HTTP response
  | exn (msg : String)                 -- requests exception
deriving DecidableEq, Repr

/-- The three vendor token classes of the loop (lines 155, 207, 211). -/
def successTokens : List String := ["succeeded", "completed", "success"]
def failTokens : List String := ["failed", "error"]

structure PollOutcome where
  success : Bool
  status : Option String := none
  error : Option String := none
deriving DecidableEq, Repr

def pollTimeoutOutcome (max_attempts : Nat) : PollOutcome :=
  ⟨false, none, some ("任务状态查询超时，已尝试" ++ toString max_attempts ++ "次")⟩

/-- Terminal upstream-reported failure (line 207-210); the vendor error
message defaults to the literal below when the payload has none. -/
def pollFailOutcome (st : String) : PollOutcome :=
  ⟨false, some st, some "任务执行失败"⟩

/-- One pass over the remaining attempt indices.  Returns the outcome,
the number of status requests performed, and the total seconds slept. -/
def queryLoop (oracle : Nat → PollResp) (max_attempts interval : Nat) :
    List Nat → Nat → Nat → PollOutcome × Nat × Nat
  | [], reqs, slept => (pollTimeoutOutcome max_attempts, reqs, slept)
  | a :: rest, reqs, slept =>
    match oracle a with
    | PollResp.ok st =>
      if successTokens.contains st then (⟨true, some st, none⟩, reqs + 1, slept)
      else if failTokens.contains st then (pollFailOutcome st, reqs + 1, slept)
      else queryLoop oracle max_attempts interval rest (reqs + 1) (slept + interval)
    | PollResp.httpErr code text =>
      if a < max_attempts - 1 then
        queryLoop oracle max_attempts interval rest (reqs + 1) (slept + interval)
      else
        (⟨false, none, some ("查询状态失败，HTTP " ++ toString code ++ ": " ++ text)⟩,
          reqs + 1, slept)
    | PollResp.exn m =>
      if a < max_attempts - 1 then
        queryLoop oracle max_attempts interval rest (reqs + 1) (slept + interval)
      else
        (⟨false, none, some ("查询请求异常: " ++ m)⟩, reqs + 1, slept)

/-- `query_task_status(task_id, max_attempts, interval)`. -/
def query_task_status (oracle : Nat → PollResp) (max_attempts interval : Nat) :
    PollOutcome × Nat × Nat :=
  queryLoop oracle max_attempts interval (List.range max_attempts) 0 0

/-! ## Submission retry (`src/modules/seedream_module.py`,
`SeedreamModule._call_api_with_retry`, lines 277-403) -/

/-- Outcome of one `visual_service.cv_process` call: a returned payload
(possibly `None`), or a raised exception with its message. -/
inductive ApiAttempt where
  | ok (resp : Option String)
  | exn (msg : String)
deriving DecidableEq, Repr

def networkErrorKeywords : List String :=
  ["timeout", "timed out", "read timeout", "connection", "network",
   "httperror", "connectionerror", "connecttimeout"]

def timeoutKeywords : List String := ["timeout", "timed out", "read timeout"]

/-- Python `error_msg.lower()` over the character sequence. -/
def lowerChars (s : String) : List Char := s.toList.map Char.toLower

/-- `keyword in error_msg.lower()` over the keyword list (line 363). -/
def is_network_error (msg : String) : Bool :=
  networkErrorKeywords.any (fun k => containsSeq k.toList (lowerChars msg))

def is_timeout (msg : String) : Bool :=
  timeoutKeywords.any (fun k => containsSeq k.toList (lowerChars msg))

/-- The retry loop over attempt indices `0..max_retries`.  Returns the
value `_call_api_with_retry` returns (`none` models Python `None`),
the number of API calls performed, and the number of `time.sleep`
delays taken (one before every attempt except the first). -/
def retryLoop (oracle : Nat → ApiAttempt) (max_retries : Nat) :
    List Nat → Nat → Nat → Option String × Nat × Nat
  | [], calls, sleeps => (none, calls, sleeps)
  | a :: rest, calls, sleeps =>
    let sleeps' := if 0 < a then sleeps + 1 else sleeps
    match oracle a with
    | ApiAttempt.ok r => (r, calls + 1, sleeps')
    | ApiAttempt.exn m =>
      if is_timeout m || is_network_error m then
        if a < max_retries then retryLoop oracle max_retries rest (calls + 1) sleeps'
        else (none, calls + 1, sleeps')
      else (none, calls + 1, sleeps')   -- non-network error: break

def call_api_with_retry (oracle : Nat → ApiAttempt) (max_retries : Nat) :
    Option String × Nat × Nat :=
  retryLoop oracle max_retries (List.range (max_retries + 1)) 0 0

/-! ## Video comprehension (`src/modules/video_comprehension_module.py`) -/

/-- The upstream chat-completions request assembled by
`call_video_comprehension_api` (lines 188-235): endpoint, model name,
the payload's video block, the prompt block, and the bearer key. -/
structure VCRequest where
  url : String
  payloadModel : String
  payloadVideoUrl : String
  payloadFps : ℚ
  payloadPrompt : String
  authKey : String
deriving DecidableEq, Repr

/-- The hardcoded URL placed in the payload's `video_url.url` slot
(video_comprehension_module.py line 199). -/
def FIXED_VIDEO_URL : String :=
  "https://fuwei-test.tos-cn-beijing.volces.com/20251206_143318_38529b83_02176284157923200000000000000000000ffffac1833802ac173.mp4"

/-- Request assembly of `call_video_comprehension_api`: note the
`video_url` argument is accepted but never placed in the payload. -/
def call_video_comprehension_api_request (endpoint model api_key : String)
    (video_url prompt : String) (fps : ℚ) : VCRequest :=
  { url := endpoint, payloadModel := model,
    payloadVideoUrl := FIXED_VIDEO_URL, payloadFps := fps,
    payloadPrompt := prompt, authKey := api_key }

/-- Parameter validation of `handle_video_comprehension_gen_text`
(lines 112-120), returning the first rejection message if any. -/
def vcValidate (config_api_key api_key video_url prompt : String) :
    Option String :=
  if api_key = "" ∧ config_api_key = "" then some "API Key 不能为空"
  else if video_url = "" then some "视频URL不能为空"
  else if prompt = "" then some "提示词不能为空"
  else none

/-! ## Multipart/form-data decoders

Two independent hand-rolled decoders exist in the source:
`TextToVideoModule.parse_multipart_form_data`
(text_to_video_module.py lines 521-566) and
`ImageToVideoModule.parse_multipart_form_data`
(image_to_video_module.py lines 330-379).  Both operate on raw bytes;
header text is ASCII in every produced request, so the
`decode('utf-8', errors='ignore')` step is modelled as the identity on
the byte level. -/

/-- ASCII bytes of a literal (all header literals are ASCII). -/
def strBytes (s : String) : List Nat := s.toList.map Char.toNat

def crlfBytes : List Nat := [13, 10]
def crlf2Bytes : List Nat := [13, 10, 13, 10]
def namePat : List Nat := strBytes "name=\""
def filePat : List Nat := strBytes "filename=\""
def boundaryPat : List Nat := strBytes "boundary="

/-- Python regex `\s` over bytes. -/
def isPySpace (b : Nat) : Bool :=
  b == 32 || b == 9 || b == 10 || b == 13 || b == 12 || b == 11

/-- `re.search(r'boundary=([^;\s]+)', content_type)` then `.strip('"')`
(text_to_video_module.py lines 525-529). -/
def extract_boundary_t2v (content_type : List Nat) : Option (List Nat) :=
  (scanPat boundaryPat (fun b => b == 59 || isPySpace b) false false
    content_type).map (stripChar 34)

/-- `re.search(r'boundary=([^;]+)', content_type)` then `.strip('"')`
(image_to_video_module.py lines 337-341). -/
def extract_boundary_i2v (content_type : List Nat) : Option (List Nat) :=
  (scanPat boundaryPat (fun b => b == 59) false false content_type).map
    (stripChar 34)

/-- A decoded part of the text-to-video decoder: raw content bytes and
the optional filename capture. -/
structure MPField where
  content : List Nat
  filename : Option (List Nat)
deriving DecidableEq, Repr

/-- Loop body of the text-to-video decoder (lines 537-560). -/
def t2vPart (fd : List (List Nat × List MPField)) (part : List Nat) :
    List (List Nat × List MPField) :=
  if part.isEmpty || part == crlfBytes || [45, 45].isPrefixOf part then fd
  else
    match splitOnceSeq crlf2Bytes part with
    | none => fd
    | some (headers_section, rest) =>
      let content := rstripCRLF rest
      match scanPat namePat (· == 34) true false headers_section with
      | none => fd
      | some field_name =>
        let filename := scanPat filePat (· == 34) true false headers_section
        dictAppend fd field_name ⟨content, filename⟩

/-- `TextToVideoModule.parse_multipart_form_data` (lines 521-566).
The decoder is a total function; the source's catch-all `except`
branch (returning `{}`) is unreachable in the model because every
step is total. -/
def parse_multipart_form_data_t2v (content_type body : List Nat) :
    List (List Nat × List MPField) :=
  match extract_boundary_t2v content_type with
  | none => []
  | some boundary =>
    let boundary_bytes := strBytes "--" ++ boundary
    (splitOnSeq boundary_bytes body).foldl t2vPart []

/-- A stored value of the image-to-video decoder: a file entry keeps
raw bytes and a filename; a plain field keeps the decoded text
(byte-level identity for ASCII payloads). -/
inductive I2VValue where
  | file (content : List Nat) (filename : List Nat)
  | text (s : List Nat)
deriving DecidableEq, Repr

/-- Loop body of the image-to-video decoder (lines 348-373).  Note the
assignment `form_data[field_name] = [...]`: a repeated field name
OVERWRITES the earlier entry instead of appending. -/
def i2vPart (fd : List (List Nat × I2VValue)) (part : List Nat) :
    List (List Nat × I2VValue) :=
  if part.all isPySpace then fd
  else
    match splitOnceSeq crlf2Bytes part with
    | none => fd
    | some (headers_section, rest) =>
      let content := rstripCRLF rest
      match scanPat namePat (· == 34) true false headers_section with
      | none => fd
      | some field_name =>
        match scanPat filePat (· == 34) true true headers_section with
        | some fn =>
          if fn.isEmpty then dictSet fd field_name (I2VValue.text content)
          else dictSet fd field_name (I2VValue.file content fn)
        | none => dictSet fd field_name (I2VValue.text content)

/-- `ImageToVideoModule.parse_multipart_form_data` (lines 330-379):
requires `multipart/form-data` in the content type, iterates
`parts[1:-1]`. -/
def parse_multipart_form_data_i2v (content_type body : List Nat) :
    List (List Nat × I2VValue) :=
  if containsSeq (strBytes "multipart/form-data") content_type = false then []
  else
    match extract_boundary_i2v content_type with
    | none => []
    | some boundary =>
      let boundary_bytes := strBytes "--" ++ boundary
      (((splitOnSeq boundary_bytes body).drop 1).dropLast).foldl i2vPart []

/-! ### Well-formed multipart bodies

A well-formed body is rendered from a boundary and a list of raw
fields in RFC 2046 shape:
`--B CRLF headers CRLF CRLF content CRLF ... --B-- CRLF`. -/

structure RawField where
  name : List Nat
  filename : Option (List Nat)
  content : List Nat
deriving DecidableEq, Repr

/-- The `MPField` the text-to-video decoder should produce for a raw
field. -/
def mpFieldOf (f : RawField) : MPField := ⟨f.content, f.filename⟩

/-- The value the image-to-video decoder should store for a raw
field. -/
def i2vValueOf (f : RawField) : I2VValue :=
  match f.filename with
  | some fn => I2VValue.file f.content fn
  | none => I2VValue.text f.content

def dispLit : List Nat := strBytes "\r\nContent-Disposition: form-data; "

/-- The header block of one part (with its leading CRLF). -/
def headerBytes (f : RawField) : List Nat :=
  dispLit ++ namePat ++ f.name ++ [34] ++
    (match f.filename with
     | some fn => strBytes "; " ++ filePat ++ fn ++ [34]
     | none => [])

/-- The bytes a part contributes after its `--boundary` marker. -/
def partBytes (f : RawField) : List Nat :=
  headerBytes f ++ crlf2Bytes ++ f.content ++ crlfBytes

def endBytes : List Nat := strBytes "--\r\n"

/-- Body tail after the first `--boundary` marker. -/
def renderTail (boundary_bytes : List Nat) : List RawField → List Nat
  | [] => endBytes
  | f :: fs => partBytes f ++ (boundary_bytes ++ renderTail boundary_bytes fs)

/-- The full multipart body for a boundary and a field list. -/
def renderBody (boundary : List Nat) (fields : List RawField) : List Nat :=
  (strBytes "--" ++ boundary) ++ renderTail (strBytes "--" ++ boundary) fields

/-- The matching Content-Type header. -/
def renderContentType (boundary : List Nat) : List Nat :=
  strBytes "multipart/form-data; boundary=" ++ boundary

/-- ASCII token byte usable inside a quoted `name`/`filename` or a
boundary: printable, not a quote, CR or LF, not `;`. -/
def tokenByte (b : Nat) : Bool :=
  33 ≤ b && b ≤ 126 && b != 34 && b != 59

/-- Structural well-formedness of one field relative to the boundary
marker `sep`: token-only name/filename, content not ending in a CR/LF
byte (the decoders strip those), and no collision of the part's bytes
with the boundary marker, the blank-line separator, or the
`filename="` pattern. -/
def fieldWF (sep : List Nat) (f : RawField) : Bool :=
  !f.name.isEmpty && f.name.all tokenByte &&
  (match f.filename with
   | some fn => !fn.isEmpty && fn.all tokenByte &&
       !containsSeq filePat (dispLit ++ namePat ++ f.name ++ [34] ++
         strBytes "; " ++ filePat.take (filePat.length - 1))
   | none => !containsSeq filePat (headerBytes f)) &&
  (match f.content.reverse.take 1 with
   | [] => true
   | b :: _ => !(b == 13 || b == 10)) &&
  !containsSeq sep (partBytes f ++ sep.take (sep.length - 1)) &&
  !containsSeq crlf2Bytes (headerBytes f ++ crlf2Bytes.take 3)

/-- Well-formedness of a whole rendered body. -/
def multipartWF (boundary : List Nat) (fields : List RawField) : Bool :=
  !boundary.isEmpty && boundary.all tokenByte &&
  !containsSeq (strBytes "--" ++ boundary) endBytes &&
  fields.all (fieldWF (strBytes "--" ++ boundary))

/-! # Claims -/

/-- C1: with caching enabled, uploading the same bytes twice (under any
two suggested filenames, any two environments) performs the storage
write exactly once across the two calls, returns the same URL both
times, and the second call reports `cached = true`.  The first call is
assumed to succeed and the content to be new to the cache — otherwise
no write at all is performed. -/
theorem upload_file_content_dedup (md5hex : List Nat → String)
    (up : TOSUploader) (env1 env2 : UploadEnv) (c0 : List (String × String))
    (content : List Nat) (f1 f2 : String) (spr1 spr2 : Bool)
    (hen : up.enable_cache = true)
    (hmiss : dictLookup c0 (md5hex content) = none)
    (hok : (upload_file md5hex up env1 (some c0) content f1 spr1).result.success = true) :
    (upload_file md5hex up env1 (some c0) content f1 spr1).storageWrites = 1 ∧
    (upload_file md5hex up env2
        (upload_file md5hex up env1 (some c0) content f1 spr1).cache
        content f2 spr2).storageWrites = 0 ∧
    (upload_file md5hex up env2
        (upload_file md5hex up env1 (some c0) content f1 spr1).cache
        content f2 spr2).result.cached = some true ∧
    (upload_file md5hex up env2
        (upload_file md5hex up env1 (some c0) content f1 spr1).cache
        content f2 spr2).result.url =
      (upload_file md5hex up env1 (some c0) content f1 spr1).result.url ∧
    (upload_file md5hex up env1 (some c0) content f1 spr1).result.url ≠ none := by
  have hprobe : cacheProbe md5hex up (some c0) content = none := by
    simp [cacheProbe, hen, hmiss]
  rcases hcp : env1.cpResult with e | ⟨rc, stderr⟩
  · exfalso
    rw [upload_file, hprobe, hcp] at hok
    simp at hok
  · by_cases hrc : rc = 0
    · subst hrc
      by_cases hspr : spr1 = true
      · rcases hacl : env1.aclResult with e | ⟨arc, astderr⟩
        · exfalso
          rw [upload_file, hprobe, hcp] at hok
          simp [hspr, hacl] at hok
        · have hs1 : upload_file md5hex up env1 (some c0) content f1 spr1 =
              ⟨⟨true, some (up.base_url ++ "/" ++
                  (env1.timestamp ++ "_" ++ (md5hex content).take 8 ++ "_" ++ f1)),
                none, some false⟩,
               some (dictSet c0 (md5hex content)
                 (up.base_url ++ "/" ++
                   (env1.timestamp ++ "_" ++ (md5hex content).take 8 ++ "_" ++ f1))),
               1⟩ := by
            rw [upload_file, hprobe, hcp]
            simp [hspr, hacl, hen]
          rw [hs1]
          have hprobe2 : cacheProbe md5hex up
              (some (dictSet c0 (md5hex content)
                (up.base_url ++ "/" ++
                  (env1.timestamp ++ "_" ++ (md5hex content).take 8 ++ "_" ++ f1))))
              content = some (up.base_url ++ "/" ++
                (env1.timestamp ++ "_" ++ (md5hex content).take 8 ++ "_" ++ f1)) := by
            simp [cacheProbe, hen, dictLookup_dictSet_self]
          rw [upload_file, hprobe2]
          refine ⟨rfl, rfl, rfl, rfl, by simp⟩
      · have hspr' : spr1 = false := by
          cases spr1
          · rfl
          · exact absurd rfl hspr
        subst hspr'
        have hs1 : upload_file md5hex up env1 (some c0) content f1 false =
            ⟨⟨true, some (up.base_url ++ "/" ++
                (env1.timestamp ++ "_" ++ (md5hex content).take 8 ++ "_" ++ f1)),
              none, some false⟩,
             some (dictSet c0 (md5hex content)
               (up.base_url ++ "/" ++
                 (env1.timestamp ++ "_" ++ (md5hex content).take 8 ++ "_" ++ f1))),
             1⟩ := by
          rw [upload_file, hprobe, hcp]
          simp [hen]
        rw [hs1]
        have hprobe2 : cacheProbe md5hex up
            (some (dictSet c0 (md5hex content)
              (up.base_url ++ "/" ++
                (env1.timestamp ++ "_" ++ (md5hex content).take 8 ++ "_" ++ f1))))
            content = some (up.base_url ++ "/" ++
              (env1.timestamp ++ "_" ++ (md5hex content).take 8 ++ "_" ++ f1)) := by
          simp [cacheProbe, hen, dictLookup_dictSet_self]
        rw [upload_file, hprobe2]
        refine ⟨rfl, rfl, rfl, rfl, by simp⟩
    · exfalso
      rw [upload_file, hprobe, hcp] at hok
      simp [hrc] at hok

/-- C1 witness. -/
theorem upload_file_content_dedup_witness :
    ((⟨"b", "r", true⟩ : TOSUploader).enable_cache = true) ∧
    (dictLookup ([] : List (String × String)) ((fun _ => "0123456789abcdef") ([7] : List Nat)) = none) ∧
    ((upload_file (fun _ => "0123456789abcdef") ⟨"b", "r", true⟩
        ⟨"20250101_000000", Except.ok (0, ""), Except.ok (0, "")⟩ (some [])
        [7] "a.png" true).result.success = true) ∧
    ((upload_file (fun _ => "0123456789abcdef") ⟨"b", "r", true⟩
        ⟨"20250101_000000", Except.ok (0, ""), Except.ok (0, "")⟩ (some [])
        [7] "a.png" true).storageWrites = 1 ∧
     (upload_file (fun _ => "0123456789abcdef") ⟨"b", "r", true⟩
        ⟨"20250102_000000", Except.error "timeout", Except.error "timeout"⟩
        (upload_file (fun _ => "0123456789abcdef") ⟨"b", "r", true⟩
          ⟨"20250101_000000", Except.ok (0, ""), Except.ok (0, "")⟩ (some [])
          [7] "a.png" true).cache
        [7] "b.jpg" false).storageWrites = 0 ∧
     (upload_file (fun _ => "0123456789abcdef") ⟨"b", "r", true⟩
        ⟨"20250102_000000", Except.error "timeout", Except.error "timeout"⟩
        (upload_file (fun _ => "0123456789abcdef") ⟨"b", "r", true⟩
          ⟨"20250101_000000", Except.ok (0, ""), Except.ok (0, "")⟩ (some [])
          [7] "a.png" true).cache
        [7] "b.jpg" false).result.cached = some true ∧
     (upload_file (fun _ => "0123456789abcdef") ⟨"b", "r", true⟩
        ⟨"20250102_000000", Except.error "timeout", Except.error "timeout"⟩
        (upload_file (fun _ => "0123456789abcdef") ⟨"b", "r", true⟩
          ⟨"20250101_000000", Except.ok (0, ""), Except.ok (0, "")⟩ (some [])
          [7] "a.png" true).cache
        [7] "b.jpg" false).result.url =
       (upload_file (fun _ => "0123456789abcdef") ⟨"b", "r", true⟩
          ⟨"20250101_000000", Except.ok (0, ""), Except.ok (0, "")⟩ (some [])
          [7] "a.png" true).result.url ∧
     (upload_file (fun _ => "0123456789abcdef") ⟨"b", "r", true⟩
        ⟨"20250101_000000", Except.ok (0, ""), Except.ok (0, "")⟩ (some [])
        [7] "a.png" true).result.url ≠ none) :=
  ⟨rfl, rfl, rfl,
    upload_file_content_dedup (fun _ => "0123456789abcdef") ⟨"b", "r", true⟩
      ⟨"20250101_000000", Except.ok (0, ""), Except.ok (0, "")⟩
      ⟨"20250102_000000", Except.error "timeout", Except.error "timeout"⟩
      [] [7] "a.png" "b.jpg" true false rfl rfl rfl⟩

/-- C4: a failing `upload_file` execution (storage-write failure or a
raised exception at either subprocess call) leaves the upload cache
exactly as it was; only the success path writes the cache. -/
theorem upload_file_failure_preserves_cache (md5hex : List Nat → String)
    (up : TOSUploader) (env : UploadEnv) (cache : UploadCache)
    (content : List Nat) (filename : String) (spr : Bool)
    (hfail : (upload_file md5hex up env cache content filename spr).result.success = false) :
    (upload_file md5hex up env cache content filename spr).cache = cache := by
  rcases hprobe : cacheProbe md5hex up cache content with _ | u
  · rcases hcp : env.cpResult with e | ⟨rc, stderr⟩
    · rw [upload_file, hprobe, hcp]
    · by_cases hrc : rc = 0
      · subst hrc
        by_cases hspr : spr = true
        · rcases hacl : env.aclResult with e | ⟨arc, astderr⟩
          · rw [upload_file, hprobe, hcp]
            simp [hspr, hacl]
          · exfalso
            rw [upload_file, hprobe, hcp] at hfail
            simp [hspr, hacl] at hfail
        · exfalso
          have hspr' : spr = false := by
            cases spr
            · rfl
            · exact absurd rfl hspr
          subst hspr'
          rw [upload_file, hprobe, hcp] at hfail
          simp at hfail
      · rw [upload_file, hprobe, hcp]
        simp [hrc]
  · exfalso
    rw [upload_file, hprobe] at hfail
    simp at hfail

/-- C4 witness. -/
theorem upload_file_failure_preserves_cache_witness :
    ((upload_file (fun _ => "0123456789abcdef") ⟨"b", "r", true⟩
        ⟨"ts", Except.ok (1, "disk full"), Except.ok (0, "")⟩ (some [])
        [7] "a.png" true).result.success = false) ∧
    (upload_file (fun _ => "0123456789abcdef") ⟨"b", "r", true⟩
        ⟨"ts", Except.ok (1, "disk full"), Except.ok (0, "")⟩ (some [])
        [7] "a.png" true).cache = some [] :=
  ⟨rfl, upload_file_failure_preserves_cache (fun _ => "0123456789abcdef")
    ⟨"b", "r", true⟩ ⟨"ts", Except.ok (1, "disk full"), Except.ok (0, "")⟩
    (some []) [7] "a.png" true rfl⟩

/-- C5 counterexample: a failure (nonzero exit) at the set-acl step
does NOT yield an error result — `upload_file` still returns
`success=True` with no error message, because the source only prints a
warning (tos_utils.py lines 93-94). -/
theorem upload_file_acl_failure_still_succeeds :
    (upload_file (fun _ => "0123456789abcdef") ⟨"b", "r", false⟩
        ⟨"ts", Except.ok (0, ""), Except.ok (1, "acl refused")⟩ none
        [7] "a.png" true).result.success = true ∧
    (upload_file (fun _ => "0123456789abcdef") ⟨"b", "r", false⟩
        ⟨"ts", Except.ok (0, ""), Except.ok (1, "acl refused")⟩ none
        [7] "a.png" true).result.error = none := ⟨rfl, rfl⟩

/-- C5 (amended): a storage-write failure returns a structured error
result (`success=False`, message prefixed `上传失败`), an exception in
either subprocess (the `cp` write or the `set-acl` call) returns a
structured error with the distinct prefix `上传过程中发生错误`, and
neither is raised to the caller (the model is a total function); but a
nonzero exit of the set-acl step is only logged — the call still
returns `success=True` with no error field. -/
theorem upload_file_error_reporting (md5hex : List Nat → String)
    (up : TOSUploader) (env : UploadEnv) (cache : UploadCache)
    (content : List Nat) (filename : String) (spr : Bool)
    (hmiss : cacheProbe md5hex up cache content = none) :
    (∀ e, env.cpResult = Except.error e →
      (upload_file md5hex up env cache content filename spr).result =
        ⟨false, none, some ("上传过程中发生错误: " ++ e), none⟩) ∧
    (∀ e stderr, env.cpResult = Except.ok (0, stderr) → spr = true →
      env.aclResult = Except.error e →
      (upload_file md5hex up env cache content filename spr).result =
        ⟨false, none, some ("上传过程中发生错误: " ++ e), none⟩) ∧
    (∀ rc stderr, env.cpResult = Except.ok (rc, stderr) → rc ≠ 0 →
      (upload_file md5hex up env cache content filename spr).result =
        ⟨false, none, some ("上传失败: " ++ stderr), none⟩) ∧
    (∀ stderr arc astderr, env.cpResult = Except.ok (0, stderr) →
      env.aclResult = Except.ok (arc, astderr) →
      (upload_file md5hex up env cache content filename spr).result.success = true ∧
      (upload_file md5hex up env cache content filename spr).result.error = none) := by
  refine ⟨?_, ?_, ?_, ?_⟩
  · intro e hcp
    rw [upload_file, hmiss, hcp]
  · intro e stderr hcp hspr hacl
    subst hspr
    rw [upload_file, hmiss, hcp]
    simp [hacl]
  · intro rc stderr hcp hrc
    rw [upload_file, hmiss, hcp]
    simp [hrc]
  · intro stderr arc astderr hcp hacl
    rw [upload_file, hmiss, hcp]
    cases spr <;> simp [hacl]

/-- C5 witness. -/
theorem upload_file_error_reporting_witness :
    ((upload_file (fun _ => "0123456789abcdef") ⟨"b", "r", false⟩
        ⟨"ts", Except.error "timed out", Except.ok (0, "")⟩ none
        [7] "a.png" true).result =
      ⟨false, none, some ("上传过程中发生错误: " ++ "timed out"), none⟩) ∧
    ((upload_file (fun _ => "0123456789abcdef") ⟨"b", "r", false⟩
        ⟨"ts", Except.ok (0, ""), Except.error "acl timed out"⟩ none
        [7] "a.png" true).result =
      ⟨false, none, some ("上传过程中发生错误: " ++ "acl timed out"), none⟩) ∧
    ((upload_file (fun _ => "0123456789abcdef") ⟨"b", "r", false⟩
        ⟨"ts", Except.ok (1, "disk full"), Except.ok (0, "")⟩ none
        [7] "a.png" true).result =
      ⟨false, none, some ("上传失败: " ++ "disk full"), none⟩) ∧
    ((upload_file (fun _ => "0123456789abcdef") ⟨"b", "r", false⟩
        ⟨"ts", Except.ok (0, ""), Except.ok (1, "acl refused")⟩ none
        [7] "a.png" true).result.success = true ∧
     (upload_file (fun _ => "0123456789abcdef") ⟨"b", "r", false⟩
        ⟨"ts", Except.ok (0, ""), Except.ok (1, "acl refused")⟩ none
        [7] "a.png" true).result.error = none) :=
  ⟨(upload_file_error_reporting (fun _ => "0123456789abcdef") ⟨"b", "r", false⟩
      ⟨"ts", Except.error "timed out", Except.ok (0, "")⟩ none [7] "a.png" true
      rfl).1 "timed out" rfl,
   (upload_file_error_reporting (fun _ => "0123456789abcdef") ⟨"b", "r", false⟩
      ⟨"ts", Except.ok (0, ""), Except.error "acl timed out"⟩ none [7] "a.png" true
      rfl).2.1 "acl timed out" "" rfl rfl rfl,
   (upload_file_error_reporting (fun _ => "0123456789abcdef") ⟨"b", "r", false⟩
      ⟨"ts", Except.ok (1, "disk full"), Except.ok (0, "")⟩ none [7] "a.png" true
      rfl).2.2.1 1 "disk full" rfl (by decide),
   (upload_file_error_reporting (fun _ => "0123456789abcdef") ⟨"b", "r", false⟩
      ⟨"ts", Except.ok (0, ""), Except.ok (1, "acl refused")⟩ none [7] "a.png" true
      rfl).2.2.2 "" 1 "acl refused" rfl rfl⟩

theorem prefixScan_eq_some_iff (rm : List (String × String)) (path : String)
    (m : String) :
    prefixScan rm path = some m ↔
      ∃ i, ∃ hi : i < rm.length, (rm.get ⟨i, hi⟩).2 = m ∧
        isPrefixRouteMatch path (rm.get ⟨i, hi⟩) = true ∧
        ∀ j, ∀ hj : j < rm.length, j < i →
          isPrefixRouteMatch path (rm.get ⟨j, hj⟩) = false := by
  induction rm with
  | nil => simp [prefixScan]
  | cons r rest ih =>
    by_cases hr : isPrefixRouteMatch path r = true
    · rw [prefixScan, if_pos hr]
      constructor
      · intro hm
        injection hm with hm
        exact ⟨0, by simp, hm, hr, fun j hj hj0 => absurd hj0 (by omega)⟩
      · rintro ⟨i, hi, hm, _hmatch, hfirst⟩
        cases i with
        | zero => simpa using congrArg some hm
        | succ i' =>
          exact absurd hr (by simpa using hfirst 0 (by simp) (by omega))
    · rw [prefixScan, if_neg hr]
      rw [ih]
      constructor
      · rintro ⟨i, hi, hm, hmatch, hfirst⟩
        refine ⟨i + 1, by simpa using Nat.succ_lt_succ hi, ?_, ?_, ?_⟩
        · simpa using hm
        · simpa using hmatch
        · intro j hj hji
          cases j with
          | zero => simpa using hr
          | succ j' =>
            have hj' : j' < rest.length := by simpa using hj
            simpa using hfirst j' hj' (by omega)
      · rintro ⟨i, hi, hm, hmatch, hfirst⟩
        cases i with
        | zero =>
          exfalso
          apply hr
          simpa using hmatch
        | succ i' =>
          have hi' : i' < rest.length := by simpa using hi
          refine ⟨i', hi', by simpa using hm, by simpa using hmatch, ?_⟩
          intro j hj hji
          have := hfirst (j + 1) (by simpa using Nat.succ_lt_succ hj) (by omega)
          simpa using this

/-- C2: route resolution. (a) an exact entry of the route dict always
wins; (b) with no exact match, `find_module_for_path` returns the
module of the first (in registration order) route ending in `/` that
prefixes the path, and nothing else; (c) when no route matches at all,
dispatch answers the structured 404 response (and, being a total
function, never crashes). -/
theorem find_module_route_resolution (rm : List (String × String))
    (path : String) :
    (∀ m, dictLookup rm path = some m → find_module_for_path rm path = some m) ∧
    (dictLookup rm path = none → ∀ m,
      (find_module_for_path rm path = some m ↔
        ∃ i, ∃ hi : i < rm.length, (rm.get ⟨i, hi⟩).2 = m ∧
          isPrefixRouteMatch path (rm.get ⟨i, hi⟩) = true ∧
          ∀ j, ∀ hj : j < rm.length, j < i →
            isPrefixRouteMatch path (rm.get ⟨j, hj⟩) = false)) ∧
    (find_module_for_path rm path = none → ∀ handlers,
      dispatchRequest rm handlers path = routeNotFoundResponse path ∧
      (dispatchRequest rm handlers path).status_code = 404 ∧
      (dispatchRequest rm handlers path).body.success = some false) := by
  refine ⟨?_, ?_, ?_⟩
  · intro m hm
    rw [find_module_for_path, hm]
  · intro hnone m
    rw [find_module_for_path, hnone]
    exact prefixScan_eq_some_iff rm path m
  · intro hnone handlers
    rw [dispatchRequest, hnone]
    exact ⟨rfl, rfl, rfl⟩

/-- C2 witness: `/task_status/` is a prefix route; `/generate_video` an
exact one; `/nope` matches nothing and yields the 404 envelope. -/
theorem find_module_route_resolution_witness :
    (dictLookup [("/generate_video", "image_to_video"), ("/task_status/", "image_to_video"), ("/text_to_video", "text_to_video")] "/generate_video" = some "image_to_video" ∧
     find_module_for_path [("/generate_video", "image_to_video"), ("/task_status/", "image_to_video"), ("/text_to_video", "text_to_video")] "/generate_video" = some "image_to_video") ∧
    (dictLookup [("/generate_video", "image_to_video"), ("/task_status/", "image_to_video"), ("/text_to_video", "text_to_video")] "/task_status/42" = none ∧
     find_module_for_path [("/generate_video", "image_to_video"), ("/task_status/", "image_to_video"), ("/text_to_video", "text_to_video")] "/task_status/42" = some "image_to_video") ∧
    (find_module_for_path [("/generate_video", "image_to_video"), ("/task_status/", "image_to_video"), ("/text_to_video", "text_to_video")] "/nope" = none ∧
     (dispatchRequest [("/generate_video", "image_to_video"), ("/task_status/", "image_to_video"), ("/text_to_video", "text_to_video")] (fun _ _ => routeNotFoundResponse "") "/nope").status_code = 404) := by
  refine ⟨⟨by decide, ?_⟩, ⟨by decide, ?_⟩, ⟨by decide, ?_⟩⟩
  · exact (find_module_route_resolution _ _).1 "image_to_video" (by decide)
  · exact ((find_module_route_resolution _ _).2.1 (by decide)
      "image_to_video").mpr
      ⟨1, by decide, by decide, by decide,
        by decide⟩
  · exact ((find_module_route_resolution _ _).2.2 (by decide)
      (fun _ _ => routeNotFoundResponse "")).2.1

/-- C3: with `max_attempts = 3, interval = 0` and an upstream that
always answers HTTP 200 with a non-terminal vendor status token, the
poll loop performs exactly 3 status requests, sleeps 0 seconds, and
reports the poll-timeout failure — which differs from every
upstream-reported task failure (those carry `status = some _`, the
timeout carries `status = none`, and the messages differ). -/
theorem query_task_status_poll_timeout (oracle : Nat → PollResp)
    (h : ∀ k, k < 3 → ∃ st, oracle k = PollResp.ok st ∧
      successTokens.contains st = false ∧ failTokens.contains st = false) :
    query_task_status oracle 3 0 = (pollTimeoutOutcome 3, 3, 0) ∧
    (pollTimeoutOutcome 3).status = none ∧
    (∀ st, pollTimeoutOutcome 3 ≠ pollFailOutcome st) := by
  obtain ⟨s0, h0, h0s, h0f⟩ := h 0 (by omega)
  obtain ⟨s1, h1, h1s, h1f⟩ := h 1 (by omega)
  obtain ⟨s2, h2, h2s, h2f⟩ := h 2 (by omega)
  refine ⟨?_, rfl, ?_⟩
  · have hr : List.range 3 = [0, 1, 2] := by decide
    rw [query_task_status, hr]
    simp only [queryLoop, h0, h1, h2, h0s, h0f, h1s, h1f, h2s, h2f,
      Bool.false_eq_true, if_false]
  · intro st hst
    have : (pollTimeoutOutcome 3).status = (pollFailOutcome st).status := by
      rw [hst]
    simp [pollTimeoutOutcome, pollFailOutcome] at this

/-- C3 witness. -/
theorem query_task_status_poll_timeout_witness :
    (∀ k, k < 3 → ∃ st, (fun _ => PollResp.ok "running") k = PollResp.ok st ∧
      successTokens.contains st = false ∧ failTokens.contains st = false) ∧
    query_task_status (fun _ => PollResp.ok "running") 3 0 =
      (pollTimeoutOutcome 3, 3, 0) :=
  ⟨fun _ _ => ⟨"running", rfl, by decide, by decide⟩,
   (query_task_status_poll_timeout (fun _ => PollResp.ok "running")
     (fun _ _ => ⟨"running", rfl, by decide, by decide⟩)).1⟩

/-- Retry loop over a consecutive index block `range' s n` with
`s ≥ 1`, every attempt failing with a network-class error. -/
theorem retryLoop_all_network (oracle : Nat → ApiAttempt) (max_retries : Nat)
    (n : Nat) : ∀ s calls sleeps, s + n = max_retries + 1 → 1 ≤ s →
    (∀ k, s ≤ k → k ≤ max_retries → ∃ m, oracle k = ApiAttempt.exn m ∧
      (is_timeout m || is_network_error m) = true) →
    retryLoop oracle max_retries (List.range' s n) calls sleeps =
      (none, calls + n, sleeps + n) := by
  induction n with
  | zero => intro s calls sleeps _ _ _; simp [retryLoop]
  | succ n ih =>
    intro s calls sleeps hs h1 hnet
    obtain ⟨m, hm, hmc⟩ := hnet s (Nat.le_refl s) (by omega)
    rw [List.range'_succ, retryLoop, hm]
    simp only [if_pos (by omega : 0 < s), hmc, if_true]
    by_cases hlast : s < max_retries
    · rw [if_pos hlast, ih (s + 1) (calls + 1) (sleeps + 1) (by omega) (by omega)
        (fun k hk1 hk2 => hnet k (by omega) hk2)]
      have e1 : calls + 1 + n = calls + (n + 1) := by omega
      have e2 : sleeps + 1 + n = sleeps + (n + 1) := by omega
      rw [e1, e2]
    · have hn : n = 0 := by omega
      subst hn
      rw [if_neg hlast]

/-- Retry loop over `range' s n`, `s ≥ 1`: network-class failures up
to attempt `k`, then a non-network failure at attempt `k`, stops right
after attempt `k`. -/
theorem retryLoop_app_error (oracle : Nat → ApiAttempt) (max_retries : Nat)
    (n : Nat) : ∀ s calls sleeps k, s + n = max_retries + 1 → 1 ≤ s →
    s ≤ k → k ≤ max_retries →
    (∀ j, s ≤ j → j < k → ∃ m, oracle j = ApiAttempt.exn m ∧
      (is_timeout m || is_network_error m) = true) →
    (∃ m, oracle k = ApiAttempt.exn m ∧
      (is_timeout m || is_network_error m) = false) →
    retryLoop oracle max_retries (List.range' s n) calls sleeps =
      (none, calls + (k - s) + 1, sleeps + (k - s) + 1) := by
  induction n with
  | zero => intro s calls sleeps k hs _ hsk hk _ _; omega
  | succ n ih =>
    intro s calls sleeps k hs h1 hsk hk hpre happ
    rw [List.range'_succ, retryLoop]
    by_cases hcur : s = k
    · subst hcur
      obtain ⟨m, hm, hmc⟩ := happ
      rw [hm]
      simp only [if_pos (by omega : 0 < s), hmc, if_false]
      simp [Nat.sub_self]
    · obtain ⟨m, hm, hmc⟩ := hpre s (Nat.le_refl s) (by omega)
      rw [hm]
      simp only [if_pos (by omega : 0 < s), hmc, if_true]
      rw [if_pos (by omega : s < max_retries)]
      rw [ih (s + 1) (calls + 1) (sleeps + 1) k (by omega) (by omega) (by omega)
        hk (fun j hj1 hj2 => hpre j (by omega) hj2) happ]
      have e1 : calls + 1 + (k - (s + 1)) + 1 = calls + (k - s) + 1 := by omega
      have e2 : sleeps + 1 + (k - (s + 1)) + 1 = sleeps + (k - s) + 1 := by omega
      rw [e1, e2]

/-- C8: submission retry policy of `_call_api_with_retry`.  (a) when
every attempt raises a network-class error (classified by inspecting
the message text for timeout/connection indicators), exactly
`max_retries` additional attempts are made — `max_retries + 1` calls,
each retry preceded by one fixed `retry_delay` sleep — and `None` is
returned; (b) when attempt `k` raises a non-network application error
(after network-class failures before it), the loop stops right after
that attempt: `k + 1` calls, no further retry. -/
theorem call_api_with_retry_policy (oracle : Nat → ApiAttempt)
    (max_retries : Nat) :
    ((∀ k, k ≤ max_retries → ∃ m, oracle k = ApiAttempt.exn m ∧
        (is_timeout m || is_network_error m) = true) →
      call_api_with_retry oracle max_retries =
        (none, max_retries + 1, max_retries)) ∧
    (∀ k, k ≤ max_retries →
      (∀ j, j < k → ∃ m, oracle j = ApiAttempt.exn m ∧
        (is_timeout m || is_network_error m) = true) →
      (∃ m, oracle k = ApiAttempt.exn m ∧
        (is_timeout m || is_network_error m) = false) →
      call_api_with_retry oracle max_retries = (none, k + 1, k)) := by
  constructor
  · intro hnet
    obtain ⟨m, hm, hmc⟩ := hnet 0 (Nat.zero_le _)
    rw [call_api_with_retry, List.range_eq_range', List.range'_succ, retryLoop, hm]
    simp only [Nat.lt_irrefl, if_false, hmc, if_true]
    by_cases h0 : 0 < max_retries
    · rw [if_pos h0,
        retryLoop_all_network oracle max_retries max_retries 1 1 0 (by omega)
          (by omega) (fun k hk1 hk2 => hnet k hk2)]
      rw [Nat.add_comm 1 max_retries, Nat.zero_add]
    · have hz : max_retries = 0 := by omega
      subst hz
      simp [retryLoop]
  · intro k hk hpre happ
    rw [call_api_with_retry, List.range_eq_range', List.range'_succ, retryLoop]
    by_cases h0 : k = 0
    · subst h0
      obtain ⟨m, hm, hmc⟩ := happ
      rw [hm]
      simp [hmc]
    · obtain ⟨m, hm, hmc⟩ := hpre 0 (by omega)
      rw [hm]
      simp only [Nat.lt_irrefl, if_false, hmc, if_true]
      rw [if_pos (by omega : 0 < max_retries),
        retryLoop_app_error oracle max_retries max_retries 1 1 0 k (by omega)
          (by omega) (by omega) hk (fun j hj1 hj2 => hpre j hj2) happ]
      refine congrArg _ ?_
      simp only [Prod.mk.injEq]
      omega

/-- C8 witness: two retried timeouts then exhaustion with
`max_retries = 2`; and an immediate authentication error making
exactly one call. -/
theorem call_api_with_retry_policy_witness :
    call_api_with_retry (fun _ => ApiAttempt.exn "Read timeout on endpoint") 2 =
      (none, 3, 2) ∧
    call_api_with_retry (fun _ => ApiAttempt.exn "invalid request body") 2 =
      (none, 1, 0) :=
  ⟨(call_api_with_retry_policy (fun _ => ApiAttempt.exn "Read timeout on endpoint") 2).1
    (fun k _ => ⟨"Read timeout on endpoint", rfl, by decide⟩),
   (call_api_with_retry_policy (fun _ => ApiAttempt.exn "invalid request body") 2).2
    0 (by decide) (fun j hj => absurd hj (by omega))
    ⟨"invalid request body", rfl, by decide⟩⟩

/-- C9 counterexample: the dispatcher-level 404 ("路径未找到") is a
failure response produced by the gateway whose body has `success=false`
but NO `module` field at all (main_server.py lines 152-156 / 186-190),
contradicting the claim that every failure body names the owning
module. -/
theorem route_not_found_lacks_module_field :
    (routeNotFoundResponse "/no/such/route").body.success = some false ∧
    (routeNotFoundResponse "/no/such/route").body.module = none :=
  ⟨rfl, rfl⟩

/-- C9 (amended): module-level failure responses built through
`BaseModule.send_error_response` carry `success=false` and a `module`
field naming the owning module, and every registered module name is
non-empty; the dispatcher-level 404 carries `success=false` but omits
the `module` field. -/
theorem error_envelope_module_field (name : String) (code : Nat)
    (msg : String) (hname : name ≠ "") :
    ((send_error_response name code msg).body.success = some false ∧
     (send_error_response name code msg).body.error = some msg ∧
     (send_error_response name code msg).body.module = some name ∧
     (send_error_response name code msg).body.module ≠ some "") ∧
    (∀ n ∈ registeredModuleNames, n ≠ "") ∧
    (∀ p, (routeNotFoundResponse p).body.success = some false ∧
      (routeNotFoundResponse p).body.module = none) := by
  refine ⟨⟨rfl, rfl, rfl, ?_⟩, ?_, fun p => ⟨rfl, rfl⟩⟩
  · intro hcontra
    injection hcontra with hc
    exact hname hc
  · intro n hn
    fin_cases hn <;> decide

/-- C9 witness. -/
theorem error_envelope_module_field_witness :
    ("image_to_video" : String) ≠ "" ∧
    (send_error_response "image_to_video" 500 "上传失败").body.success = some false ∧
    (send_error_response "image_to_video" 500 "上传失败").body.module =
      some "image_to_video" :=
  ⟨by decide,
   (error_envelope_module_field "image_to_video" 500 "上传失败" (by decide)).1.1,
   (error_envelope_module_field "image_to_video" 500 "上传失败" (by decide)).1.2.2.1⟩

/-- C10: the upstream request assembled by
`call_video_comprehension_api` does not depend on the `video_url`
argument — the payload's video slot is the hardcoded constant — even
though `handle_video_comprehension_gen_text` rejects an empty
`video_url` before calling it. -/
theorem vc_request_ignores_video_url :
    (∀ endpoint model api_key prompt fps u1 u2,
      call_video_comprehension_api_request endpoint model api_key u1 prompt fps =
        call_video_comprehension_api_request endpoint model api_key u2 prompt fps ∧
      (call_video_comprehension_api_request endpoint model api_key u1 prompt
        fps).payloadVideoUrl = FIXED_VIDEO_URL) ∧
    (∀ config_api_key api_key prompt,
      ¬(api_key = "" ∧ config_api_key = "") →
      vcValidate config_api_key api_key "" prompt = some "视频URL不能为空") := by
  constructor
  · intro endpoint model api_key prompt fps u1 u2
    exact ⟨rfl, rfl⟩
  · intro config_api_key api_key prompt hkey
    rw [vcValidate, if_neg hkey, if_pos rfl]

/-- C10 witness. -/
theorem vc_request_ignores_video_url_witness :
    (call_video_comprehension_api_request "https://ark/api" "doubao" "key"
        "https://a.mp4" "describe" 1 =
      call_video_comprehension_api_request "https://ark/api" "doubao" "key"
        "https://b.mp4" "describe" 1) ∧
    ¬(("key" : String) = "" ∧ ("" : String) = "") ∧
    vcValidate "" "key" "" "describe" = some "视频URL不能为空" :=
  ⟨(vc_request_ignores_video_url.1 "https://ark/api" "doubao" "key" "describe"
      1 "https://a.mp4" "https://b.mp4").1,
   by decide,
   vc_request_ignores_video_url.2 "" "key" "describe" (by decide)⟩

/-! ### Multipart round-trip machinery -/

theorem takeWhile_all [DecidableEq α] {p : α → Bool} {l : List α}
    (h : ∀ b ∈ l, p b = true) : l.takeWhile p = l := by
  induction l with
  | nil => rfl
  | cons a t ih =>
    rw [List.takeWhile_cons, h a (by simp)]
    simp only [if_true]
    rw [ih (fun b hb => h b (by simp [hb]))]

theorem splitOnSeq_nil [DecidableEq α] (sep : List α) :
    splitOnSeq sep ([] : List α) = [[]] := by
  rw [splitOnSeq]
  by_cases hs : sep = []
  · rw [if_pos hs]
  · rw [if_neg hs]
    rfl

/-- A token byte is not a quote and not a stop byte for either
boundary-capture regex. -/
theorem tokenByte_facts {x : Nat} (h : tokenByte x = true) :
    x ≠ 34 ∧ ((x == 59 || isPySpace x) = false) ∧ ((x == 59) = false) ∧
    ((x == 34) = false) := by
  simp only [tokenByte, Bool.and_eq_true, decide_eq_true_eq, bne_iff_ne] at h
  obtain ⟨⟨⟨h1, h2⟩, h3⟩, h4⟩ := h
  refine ⟨h3, ?_, ?_, ?_⟩
  · simp only [isPySpace, Bool.or_eq_false_iff, beq_eq_false_iff_ne]
    omega
  · simp only [beq_eq_false_iff_ne]
    omega
  · simp only [beq_eq_false_iff_ne]
    exact h3

theorem take_of_append_long [DecidableEq α] {u : List α} (v : List α) {n : Nat}
    (h : n ≤ u.length) : (u ++ v).take n = u.take n := by
  rw [List.take_append_eq_append_take, Nat.sub_eq_zero_of_le h, List.take_zero,
    List.append_nil]

/-- Boundary extraction of the text-to-video decoder succeeds on the
rendered Content-Type and returns the boundary unchanged. -/
theorem extract_boundary_t2v_render {b : List Nat} (hb : b ≠ [])
    (hall : b.all tokenByte = true) :
    extract_boundary_t2v (renderContentType b) = some b := by
  have hsplit : renderContentType b =
      strBytes "multipart/form-data; " ++ (boundaryPat ++ b) := by
    rw [renderContentType,
      show strBytes "multipart/form-data; boundary=" =
        strBytes "multipart/form-data; " ++ boundaryPat from by decide,
      List.append_assoc]
  have hskip : containsSeq boundaryPat
      (strBytes "multipart/form-data; " ++
        (boundaryPat ++ b).take (boundaryPat.length - 1)) = false := by
    rw [take_of_append_long b (by decide)]
    decide
  have htw : b.takeWhile (fun x => !(x == 59 || isPySpace x)) = b := by
    apply takeWhile_all
    intro x hx
    have := (tokenByte_facts (by
      rw [List.all_eq_true] at hall
      exact hall x hx)).2.1
    simp [this]
  rw [extract_boundary_t2v, hsplit, scanPat_append hskip,
    scanPat_capture_open (by decide) (Or.inr (by rw [htw]; exact hb)), htw,
    Option.map_some']
  congr 1
  apply stripChar_eq_self
  intro a ha
  exact (tokenByte_facts (by
    rw [List.all_eq_true] at hall
    exact hall a ha)).1

/-- Boundary extraction of the image-to-video decoder likewise. -/
theorem extract_boundary_i2v_render {b : List Nat} (hb : b ≠ [])
    (hall : b.all tokenByte = true) :
    extract_boundary_i2v (renderContentType b) = some b := by
  have hsplit : renderContentType b =
      strBytes "multipart/form-data; " ++ (boundaryPat ++ b) := by
    rw [renderContentType,
      show strBytes "multipart/form-data; boundary=" =
        strBytes "multipart/form-data; " ++ boundaryPat from by decide,
      List.append_assoc]
  have hskip : containsSeq boundaryPat
      (strBytes "multipart/form-data; " ++
        (boundaryPat ++ b).take (boundaryPat.length - 1)) = false := by
    rw [take_of_append_long b (by decide)]
    decide
  have htw : b.takeWhile (fun x => !(x == 59)) = b := by
    apply takeWhile_all
    intro x hx
    have := (tokenByte_facts (by
      rw [List.all_eq_true] at hall
      exact hall x hx)).2.2.1
    simp [this]
  rw [extract_boundary_i2v, hsplit, scanPat_append hskip,
    scanPat_capture_open (by decide) (Or.inr (by rw [htw]; exact hb)), htw,
    Option.map_some']
  congr 1
  apply stripChar_eq_self
  intro a ha
  exact (tokenByte_facts (by
    rw [List.all_eq_true] at hall
    exact hall a ha)).1

theorem contentType_has_multipart (b : List Nat) :
    containsSeq (strBytes "multipart/form-data") (renderContentType b) = true := by
  apply containsSeq_of_isPrefixOf
  rw [renderContentType,
    show strBytes "multipart/form-data; boundary=" =
      strBytes "multipart/form-data" ++ strBytes "; boundary=" from by decide,
    List.append_assoc]
  exact isPrefixOf_append_self _ _

theorem splitOnSeq_renderTail {sep : List Nat} (hsep : sep ≠ [])
    (hend : containsSeq sep endBytes = false) :
    ∀ fields : List RawField,
    (∀ f ∈ fields,
      containsSeq sep (partBytes f ++ sep.take (sep.length - 1)) = false) →
    splitOnSeq sep (renderTail sep fields) = fields.map partBytes ++ [endBytes] := by
  intro fields
  induction fields with
  | nil =>
    intro _
    rw [renderTail, splitOnSeq_of_not_contains hend]
    rfl
  | cons f fs ih =>
    intro hf
    rw [renderTail, splitOnSeq_append (renderTail sep fs) hsep
      (hf f (by simp)), ih (fun g hg => hf g (by simp [hg]))]
    rfl

theorem splitOnSeq_renderBody {boundary : List Nat} {fields : List RawField}
    (hwf : multipartWF boundary fields = true) :
    splitOnSeq (strBytes "--" ++ boundary) (renderBody boundary fields) =
      [] :: (fields.map partBytes ++ [endBytes]) := by
  have hsep : (strBytes "--" ++ boundary) ≠ [] := by
    intro hc
    have := congrArg List.length hc
    simp [strBytes] at this
  simp only [multipartWF, Bool.and_eq_true, Bool.not_eq_true',
    List.all_eq_true] at hwf
  obtain ⟨⟨⟨_hb, _hall⟩, hend⟩, hfields⟩ := hwf
  have hnospan0 : containsSeq (strBytes "--" ++ boundary)
      (([] : List Nat) ++ (strBytes "--" ++ boundary).take
        ((strBytes "--" ++ boundary).length - 1)) = false := by
    apply containsSeq_of_short
    rw [List.nil_append, List.length_take]
    have : 0 < (strBytes "--" ++ boundary).length := by
      cases hsb : strBytes "--" ++ boundary with
      | nil => exact absurd hsb hsep
      | cons a t => simp
    omega
  rw [renderBody, show (strBytes "--" ++ boundary) ++
      renderTail (strBytes "--" ++ boundary) fields =
      [] ++ ((strBytes "--" ++ boundary) ++
        renderTail (strBytes "--" ++ boundary) fields) from rfl,
    splitOnSeq_append _ hsep hnospan0,
    splitOnSeq_renderTail hsep hend fields (fun f hf => by
      have := hfields f hf
      simp only [fieldWF, Bool.and_eq_true, Bool.not_eq_true'] at this
      exact this.1.2)]

/-- Decomposition of a part's bytes into the shapes the processing
lemmas need. -/
theorem partBytes_decomp (f : RawField) :
    partBytes f = headerBytes f ++
      (crlf2Bytes ++ (f.content ++ crlfBytes)) := by
  rw [partBytes, List.append_assoc, List.append_assoc]

/-- Splitting a rendered part at the first blank line recovers the
header block and the content (with its trailing CRLF). -/
theorem splitOnce_partBytes {f : RawField}
    (hns : containsSeq crlf2Bytes (headerBytes f ++ crlf2Bytes.take 3) = false) :
    splitOnceSeq crlf2Bytes (partBytes f) =
      some (headerBytes f, f.content ++ crlfBytes) := by
  rw [partBytes_decomp]
  exact splitOnceSeq_append _ (by
    rw [show crlf2Bytes.take (crlf2Bytes.length - 1) = crlf2Bytes.take 3 from rfl]
    exact hns)

/-- The name capture on a rendered header block. -/
theorem scanName_headerBytes {f : RawField}
    (hname : f.name ≠ []) (hall : f.name.all tokenByte = true) :
    scanPat namePat (· == 34) true false (headerBytes f) = some f.name := by
  have hshape : headerBytes f = dispLit ++
      (namePat ++ (f.name ++ ((34 : Nat) ::
        (match f.filename with
         | some fn => strBytes "; " ++ filePat ++ fn ++ [34]
         | none => [])))) := by
    rw [headerBytes]
    simp [List.append_assoc]
  have hskip : containsSeq namePat
      (dispLit ++ (namePat ++ (f.name ++ ((34 : Nat) ::
        (match f.filename with
         | some fn => strBytes "; " ++ filePat ++ fn ++ [34]
         | none => [])))).take (namePat.length - 1)) = false := by
    rw [take_of_append_long _ (by decide)]
    decide
  rw [hshape, scanPat_append hskip]
  exact scanPat_capture_closed _ (by decide)
    (fun x hx => (tokenByte_facts (by
      rw [List.all_eq_true] at hall
      exact hall x hx)).2.2.2)
    (by decide) (Or.inr hname)

/-- The filename capture on a rendered header block carrying a
filename, for either regex variant (`+` or `*`). -/
theorem scanFile_headerBytes_some {f : RawField} {fn : List Nat} {ae : Bool}
    (hfn : f.filename = some fn) (hfnne : fn ≠ [])
    (hfnall : fn.all tokenByte = true)
    (hskip0 : containsSeq filePat (dispLit ++ namePat ++ f.name ++ [34] ++
      strBytes "; " ++ filePat.take (filePat.length - 1)) = false) :
    scanPat filePat (· == 34) true ae (headerBytes f) = some fn := by
  have hshape : headerBytes f =
      (dispLit ++ namePat ++ f.name ++ [34] ++ strBytes "; ") ++
        (filePat ++ (fn ++ ((34 : Nat) :: []))) := by
    rw [headerBytes, hfn]
    simp [List.append_assoc]
  have hskip : containsSeq filePat
      ((dispLit ++ namePat ++ f.name ++ [34] ++ strBytes "; ") ++
        (filePat ++ (fn ++ ((34 : Nat) :: []))).take (filePat.length - 1)) = false := by
    rw [take_of_append_long _ (by decide)]
    have hre : dispLit ++ namePat ++ f.name ++ [34] ++ strBytes "; " ++
        filePat.take (filePat.length - 1) =
        (dispLit ++ namePat ++ f.name ++ [34] ++ strBytes "; ") ++
          filePat.take (filePat.length - 1) := rfl
    rw [hre] at hskip0
    exact hskip0
  rw [hshape, scanPat_append hskip]
  exact scanPat_capture_closed _ (by decide)
    (fun x hx => (tokenByte_facts (by
      rw [List.all_eq_true] at hfnall
      exact hfnall x hx)).2.2.2)
    (by decide) (Or.inr hfnne)

/-- Unpacking of `fieldWF` into the facts the processing lemmas use. -/
theorem fieldWF_spec {sep : List Nat} {f : RawField}
    (h : fieldWF sep f = true) :
    f.name ≠ [] ∧ f.name.all tokenByte = true ∧
    (∀ fn, f.filename = some fn → fn ≠ [] ∧ fn.all tokenByte = true ∧
      containsSeq filePat (dispLit ++ namePat ++ f.name ++ [34] ++
        strBytes "; " ++ filePat.take (filePat.length - 1)) = false) ∧
    (f.filename = none → containsSeq filePat (headerBytes f) = false) ∧
    (∀ a ∈ f.content.reverse.take 1, (a == 13 || a == 10) = false) ∧
    containsSeq sep (partBytes f ++ sep.take (sep.length - 1)) = false ∧
    containsSeq crlf2Bytes (headerBytes f ++ crlf2Bytes.take 3) = false := by
  simp only [fieldWF, Bool.and_eq_true, Bool.not_eq_true'] at h
  obtain ⟨⟨⟨⟨⟨hn1, hn2⟩, hfile⟩, hcont⟩, hsep⟩, hcrlf⟩ := h
  have hname : f.name ≠ [] := by
    intro hc
    rw [hc] at hn1
    simp at hn1
  refine ⟨hname, hn2, ?_, ?_, ?_, hsep, hcrlf⟩
  · intro fn hfn
    rw [hfn] at hfile
    simp only [Bool.and_eq_true, Bool.not_eq_true'] at hfile
    obtain ⟨⟨hf1, hf2⟩, hf3⟩ := hfile
    refine ⟨?_, hf2, hf3⟩
    intro hc
    rw [hc] at hf1
    simp at hf1
  · intro hfn
    rw [hfn] at hfile
    simpa using hfile
  · intro a ha
    rcases hrt : f.content.reverse.take 1 with _ | ⟨b, t⟩
    · rw [hrt] at ha
      simp at ha
    · rw [hrt] at ha hcont
      have ht : t = [] := by
        have := congrArg List.length hrt
        simp only [List.length_take, List.length_cons] at this
        cases t with
        | nil => rfl
        | cons c u =>
          exfalso
          simp only [List.length_cons] at this
          omega
      subst ht
      have hab : a = b := by simpa using ha
      subst hab
      simpa using hcont

/-- A rendered part starts with the bytes `\r\nC`. -/
theorem partBytes_cons (f : RawField) :
    ∃ y, partBytes f = 13 :: 10 :: 67 :: y := by
  refine ⟨strBytes "ontent-Disposition: form-data; " ++
    (namePat ++ f.name ++ [34] ++
      (match f.filename with
       | some fn => strBytes "; " ++ filePat ++ fn ++ [34]
       | none => []) ++ (crlf2Bytes ++ (f.content ++ crlfBytes))), ?_⟩
  rw [partBytes, headerBytes,
    show dispLit = 13 :: 10 :: 67 :: strBytes "ontent-Disposition: form-data; "
      from by decide]
  simp [List.append_assoc]

/-- Processing one rendered part in the text-to-video loop appends the
field under its name. -/
theorem t2vPart_renderPart {sep : List Nat}
    (fd : List (List Nat × List MPField)) {f : RawField}
    (h : fieldWF sep f = true) :
    t2vPart fd (partBytes f) = dictAppend fd f.name (mpFieldOf f) := by
  obtain ⟨hname, hnall, hfsome, hfnone, hcont, _hsep, hcrlf⟩ := fieldWF_spec h
  obtain ⟨y, hy⟩ := partBytes_cons f
  have hskip : ((partBytes f).isEmpty ||
      partBytes f == crlfBytes || [45, 45].isPrefixOf (partBytes f)) = false := by
    rw [hy]
    simp only [List.isEmpty_cons, Bool.false_or, Bool.or_eq_false_iff]
    constructor
    · exact beq_eq_false_iff_ne.mpr (by simp [crlfBytes])
    · simp [List.isPrefixOf]
  have hrstrip : rstripCRLF (f.content ++ crlfBytes) = f.content :=
    rstripCRLF_append f.content hcont
  rw [t2vPart, if_neg (by rw [hskip]; simp)]
  simp only [splitOnce_partBytes hcrlf, scanName_headerBytes hname hnall,
    hrstrip]
  rcases hfn : f.filename with _ | fn
  · simp only [scanPat_of_not_contains (hfnone hfn), mpFieldOf, hfn]
  · obtain ⟨hfnne, hfnall, hfskip⟩ := hfsome fn hfn
    simp only [scanFile_headerBytes_some hfn hfnne hfnall hfskip, mpFieldOf, hfn]

/-- Processing one rendered part in the image-to-video loop overwrites
the entry under its name. -/
theorem i2vPart_renderPart {sep : List Nat}
    (fd : List (List Nat × I2VValue)) {f : RawField}
    (h : fieldWF sep f = true) :
    i2vPart fd (partBytes f) = dictSet fd f.name (i2vValueOf f) := by
  obtain ⟨hname, hnall, hfsome, hfnone, hcont, _hsep, hcrlf⟩ := fieldWF_spec h
  obtain ⟨y, hy⟩ := partBytes_cons f
  have hskip : (partBytes f).all isPySpace = false := by
    rw [hy]
    simp [List.all_cons, isPySpace]
  have hrstrip : rstripCRLF (f.content ++ crlfBytes) = f.content :=
    rstripCRLF_append f.content hcont
  rw [i2vPart, if_neg (by rw [hskip]; simp)]
  simp only [splitOnce_partBytes hcrlf, scanName_headerBytes hname hnall,
    hrstrip]
  rcases hfn : f.filename with _ | fn
  · simp only [scanPat_of_not_contains (hfnone hfn), i2vValueOf, hfn]
  · obtain ⟨hfnne, hfnall, hfskip⟩ := hfsome fn hfn
    have hemp : fn.isEmpty = false := by
      cases fn with
      | nil => exact absurd rfl hfnne
      | cons a t => rfl
    simp only [scanFile_headerBytes_some hfn hfnne hfnall hfskip, hemp,
      Bool.false_eq_true, if_false, i2vValueOf, hfn]

theorem t2vPart_nil (fd : List (List Nat × List MPField)) : t2vPart fd [] = fd := by
  rw [t2vPart, if_pos (by decide)]

theorem t2vPart_endBytes (fd : List (List Nat × List MPField)) :
    t2vPart fd endBytes = fd := by
  rw [t2vPart, if_pos (by decide)]

theorem foldl_t2vPart {sep : List Nat} (fields : List RawField)
    (h : ∀ f ∈ fields, fieldWF sep f = true) :
    ∀ fd, (fields.map partBytes).foldl t2vPart fd =
      fields.foldl (fun d f => dictAppend d f.name (mpFieldOf f)) fd := by
  induction fields with
  | nil => intro fd; rfl
  | cons f fs ih =>
    intro fd
    rw [List.map_cons, List.foldl_cons, List.foldl_cons,
      t2vPart_renderPart fd (h f (by simp)),
      ih (fun g hg => h g (by simp [hg]))]

theorem foldl_i2vPart {sep : List Nat} (fields : List RawField)
    (h : ∀ f ∈ fields, fieldWF sep f = true) :
    ∀ fd, (fields.map partBytes).foldl i2vPart fd =
      fields.foldl (fun d f => dictSet d f.name (i2vValueOf f)) fd := by
  induction fields with
  | nil => intro fd; rfl
  | cons f fs ih =>
    intro fd
    rw [List.map_cons, List.foldl_cons, List.foldl_cons,
      i2vPart_renderPart fd (h f (by simp)),
      ih (fun g hg => h g (by simp [hg]))]

/-- Looking up a name after folding `dictAppend` over the fields:
the accumulated list under `n` is extended by exactly the fields named
`n`, in order. -/
theorem dictLookup_foldl_dictAppend {β : Type} (g : RawField → β)
    (fields : List RawField) :
    ∀ (fd : List (List Nat × List β)) (n : List Nat),
    dictLookup (fields.foldl (fun d f => dictAppend d f.name (g f)) fd) n =
      (match dictLookup fd n with
       | none =>
         if (fields.filter (fun f => f.name == n)) = [] then none
         else some ((fields.filter (fun f => f.name == n)).map g)
       | some l0 => some (l0 ++ (fields.filter (fun f => f.name == n)).map g)) := by
  induction fields with
  | nil =>
    intro fd n
    cases hfd : dictLookup fd n <;> simp [List.filter, hfd]
  | cons f fs ih =>
    intro fd n
    rw [List.foldl_cons, ih (dictAppend fd f.name (g f)) n]
    by_cases hn : f.name = n
    · have hb : (f.name == n) = true := beq_iff_eq.mpr hn
      rw [show dictLookup (dictAppend fd f.name (g f)) n =
          some ((dictLookup fd n).getD [] ++ [g f]) from by
        rw [← hn]; exact dictLookup_dictAppend_self fd f.name (g f)]
      rw [List.filter_cons, hb]
      simp only [if_true]
      cases hfd : dictLookup fd n with
      | none => simp
      | some l0 => simp
    · have hb : (f.name == n) = false := beq_eq_false_iff_ne.mpr hn
      rw [dictLookup_dictAppend_other fd (g f) hn, List.filter_cons, hb]
      simp only [Bool.false_eq_true, if_false]

/-- Looking up a name after folding `dictSet` over the fields: only
the LAST field with that name survives. -/
theorem dictLookup_foldl_dictSet {β : Type} (g : RawField → β)
    (fields : List RawField) :
    ∀ (fd : List (List Nat × β)) (n : List Nat),
    dictLookup (fields.foldl (fun d f => dictSet d f.name (g f)) fd) n =
      (match fields.reverse.find? (fun f => f.name == n) with
       | some f => some (g f)
       | none => dictLookup fd n) := by
  induction fields with
  | nil => intro fd n; rfl
  | cons f fs ih =>
    intro fd n
    rw [List.foldl_cons, ih (dictSet fd f.name (g f)) n, List.reverse_cons,
      List.find?_append]
    cases hfs : fs.reverse.find? (fun f => f.name == n) with
    | some f' => rfl
    | none =>
      simp only [Option.none_orElse]
      by_cases hn : f.name = n
      · have hb : (f.name == n) = true := beq_iff_eq.mpr hn
        rw [show dictLookup (dictSet fd f.name (g f)) n = some (g f) from by
          rw [← hn]; exact dictLookup_dictSet_self fd f.name (g f)]
        simp [List.find?, hb]
      · have hb : (f.name == n) = false := beq_eq_false_iff_ne.mpr hn
        rw [dictLookup_dictSet_other fd (g f) hn]
        simp [List.find?, hb]

/-- Unpacking of `multipartWF`. -/
theorem multipartWF_spec {boundary : List Nat} {fields : List RawField}
    (hwf : multipartWF boundary fields = true) :
    boundary ≠ [] ∧ boundary.all tokenByte = true ∧
    (∀ f ∈ fields, fieldWF (strBytes "--" ++ boundary) f = true) := by
  simp only [multipartWF, Bool.and_eq_true, Bool.not_eq_true',
    List.all_eq_true] at hwf
  obtain ⟨⟨⟨hb, hall⟩, _hend⟩, hfields⟩ := hwf
  refine ⟨?_, by rw [List.all_eq_true]; exact hall, hfields⟩
  intro hc
  rw [hc] at hb
  simp at hb

/-- Full decode of a well-formed rendered body by the text-to-video
decoder: every part is appended under its field name in arrival
order. -/
theorem parse_t2v_render {boundary : List Nat} {fields : List RawField}
    (hwf : multipartWF boundary fields = true) :
    parse_multipart_form_data_t2v (renderContentType boundary)
        (renderBody boundary fields) =
      fields.foldl (fun d f => dictAppend d f.name (mpFieldOf f)) [] := by
  obtain ⟨hb, hall, hfields⟩ := multipartWF_spec hwf
  rw [parse_multipart_form_data_t2v]
  simp only [extract_boundary_t2v_render hb hall]
  rw [splitOnSeq_renderBody hwf, List.foldl_cons, t2vPart_nil,
    List.foldl_append, foldl_t2vPart fields hfields, List.foldl_cons,
    List.foldl_nil, t2vPart_endBytes]

theorem i2vPart_nil_all_space (fd : List (List Nat × I2VValue)) :
    i2vPart fd [] = fd := by
  rw [i2vPart, if_pos (by decide)]

/-- Full decode by the image-to-video decoder: each part overwrites
the entry under its field name, so only the last one survives. -/
theorem parse_i2v_render {boundary : List Nat} {fields : List RawField}
    (hwf : multipartWF boundary fields = true) :
    parse_multipart_form_data_i2v (renderContentType boundary)
        (renderBody boundary fields) =
      fields.foldl (fun d f => dictSet d f.name (i2vValueOf f)) [] := by
  obtain ⟨hb, hall, hfields⟩ := multipartWF_spec hwf
  rw [parse_multipart_form_data_i2v,
    if_neg (by rw [contentType_has_multipart]; simp)]
  simp only [extract_boundary_i2v_render hb hall]
  rw [splitOnSeq_renderBody hwf]
  have hdrop : (([] : List Nat) ::
      (fields.map partBytes ++ [endBytes])).drop 1 =
      fields.map partBytes ++ [endBytes] := rfl
  rw [hdrop, List.dropLast_concat, foldl_i2vPart fields hfields]

/-- C6 (amended): for a well-formed multipart body, the text-to-video
decoder returns under each repeated field name the list of ALL parts
carrying that name, in arrival order, with their content bytes and
filenames (content is exact because well-formedness excludes contents
ending in a CR/LF byte, which the decoder strips); the image-to-video
decoder instead keeps only the LAST part for a repeated name. -/
theorem multipart_repeated_field_names {boundary : List Nat}
    {fields : List RawField} (hwf : multipartWF boundary fields = true)
    (n : List Nat) :
    (dictLookup (parse_multipart_form_data_t2v (renderContentType boundary)
        (renderBody boundary fields)) n =
      (if (fields.filter (fun f => f.name == n)) = [] then none
       else some ((fields.filter (fun f => f.name == n)).map mpFieldOf))) ∧
    (dictLookup (parse_multipart_form_data_i2v (renderContentType boundary)
        (renderBody boundary fields)) n =
      (match fields.reverse.find? (fun f => f.name == n) with
       | some f => some (i2vValueOf f)
       | none => none)) := by
  constructor
  · rw [parse_t2v_render hwf, dictLookup_foldl_dictAppend mpFieldOf fields [] n]
    rfl
  · rw [parse_i2v_render hwf, dictLookup_foldl_dictSet i2vValueOf fields [] n]
    cases fields.reverse.find? (fun f => f.name == n) <;> rfl

set_option maxRecDepth 100000 in
/-- C6 counterexample: the claim fails on the code as stated.  (a) the
image-to-video decoder drops the first of two parts sharing the field
name `img`, keeping only the last; (b) the text-to-video decoder does
not return the original content bytes when they end in a newline —
`[97, 10]` comes back as `[97]`. -/
theorem multipart_repeated_field_names_counterexample :
    (parse_multipart_form_data_i2v (renderContentType (strBytes "BBB"))
      (renderBody (strBytes "BBB")
        [⟨strBytes "img", some (strBytes "a.png"), [1]⟩,
         ⟨strBytes "img", some (strBytes "b.png"), [2]⟩]) =
      [(strBytes "img", I2VValue.file [2] (strBytes "b.png"))]) ∧
    (parse_multipart_form_data_t2v (renderContentType (strBytes "BBB"))
      (renderBody (strBytes "BBB") [⟨strBytes "c", none, [97, 10]⟩]) =
      [(strBytes "c", [⟨[97], none⟩])]) := by
  exact ⟨by decide, by decide⟩

set_option maxRecDepth 100000 in
/-- C6 witness. -/
theorem multipart_repeated_field_names_witness :
    (multipartWF (strBytes "BBB")
      [⟨strBytes "img", some (strBytes "a.png"), [1]⟩,
       ⟨strBytes "img", some (strBytes "b.png"), [2]⟩] = true) ∧
    (dictLookup (parse_multipart_form_data_t2v
        (renderContentType (strBytes "BBB"))
        (renderBody (strBytes "BBB")
          [⟨strBytes "img", some (strBytes "a.png"), [1]⟩,
           ⟨strBytes "img", some (strBytes "b.png"), [2]⟩]))
      (strBytes "img") =
      some [⟨[1], some (strBytes "a.png")⟩, ⟨[2], some (strBytes "b.png")⟩]) ∧
    (dictLookup (parse_multipart_form_data_i2v
        (renderContentType (strBytes "BBB"))
        (renderBody (strBytes "BBB")
          [⟨strBytes "img", some (strBytes "a.png"), [1]⟩,
           ⟨strBytes "img", some (strBytes "b.png"), [2]⟩]))
      (strBytes "img") =
      some (I2VValue.file [2] (strBytes "b.png"))) := by
  refine ⟨by decide, ?_, ?_⟩
  · rw [(multipart_repeated_field_names (by decide) (strBytes "img")).1]
    decide
  · rw [(multipart_repeated_field_names (by decide) (strBytes "img")).2]
    decide

/-- C7: the text-to-video multipart decoder is a total function (the
embedding needs no partiality and the source's catch-all `except`
branch returning `{}` is unreachable); a content type with no
decodable boundary declaration yields the empty mapping for every
body, and the empty body yields the empty mapping for every content
type. -/
theorem multipart_decoder_total (content_type body : List Nat) :
    (extract_boundary_t2v content_type = none →
      parse_multipart_form_data_t2v content_type body = []) ∧
    parse_multipart_form_data_t2v content_type [] = [] := by
  constructor
  · intro h
    rw [parse_multipart_form_data_t2v, h]
  · rw [parse_multipart_form_data_t2v]
    cases hx : extract_boundary_t2v content_type with
    | none => rfl
    | some b =>
      simp only [splitOnSeq_nil, List.foldl_cons, List.foldl_nil, t2vPart_nil]

set_option maxRecDepth 100000 in
/-- C7 witness: a corrupted content type (no boundary token) with a
non-empty body, and a well-declared boundary with an empty body. -/
theorem multipart_decoder_total_witness :
    extract_boundary_t2v (strBytes "multipart/form-data; boundary=") = none ∧
    parse_multipart_form_data_t2v (strBytes "multipart/form-data; boundary=")
      (strBytes "--X\r\nnot a real part\r\n--X--\r\n") = [] ∧
    parse_multipart_form_data_t2v (renderContentType (strBytes "BBB")) [] = [] :=
  ⟨by decide,
   (multipart_decoder_total (strBytes "multipart/form-data; boundary=")
     (strBytes "--X\r\nnot a real part\r\n--X--\r\n")).1 (by decide),
   (multipart_decoder_total (renderContentType (strBytes "BBB")) []).2⟩

end VolcBoard
